import Mathlib

/-!
# music-center: transcoding negotiation, stream job keys and streams

A shallow embedding of `core/media_streamer.go`.

* Go `int` values (bit rates) are integers; `selectTranscodingOptions` only
  compares and copies them, so no machine arithmetic is involved.
* The request context is reduced to the two values the function reads from it:
  the caller transcoding profile (`request.TranscodingFrom`) and the device
  profile (`request.PlayerFrom`), each optional.
* The data store is reduced to the rule lookup `Transcoding(ctx).FindByFormat`,
  a function that either yields a rule or fails.
* `conf.Server.DefaultDownsamplingFormat` is passed explicitly.
* Log statements have no effect on the result and are omitted.
* Go strings are modelled by `String`; the functions only compare and
  concatenate them.
* `selectTranscodingOptionsLog` also records which format names are passed to
  `FindByFormat`, so that statements about the lookups that are made can be
  expressed.
* `float32` values, `os.Open` and the transcoding cache are described in the
  sections that introduce them.
-/

namespace MusicCenter

/-- The fields of `model.Transcoding` read by the streamer. -/
structure Transcoding where
  TargetFormat : String
  Command : String
  DefaultBitRate : Int
deriving DecidableEq

/-- The field of `model.Player` read by the streamer. -/
structure Player where
  MaxBitRate : Int
deriving DecidableEq

/-- What `selectTranscodingOptions` reads from the request context:
`request.TranscodingFrom(ctx)` and `request.PlayerFrom(ctx)`; `none` stands for
the `ok = false` result. -/
structure Context where
  transcoding : Option Transcoding
  player : Option Player

/-- The rule store: `ds.Transcoding(ctx).FindByFormat`; `none` stands for a
non-nil error. -/
structure DataStore where
  FindByFormat : String → Option Transcoding

/-- The value of a Go `time.Time` as `Format` sees it: the calendar date and
clock reading in the location of the time value, the nanosecond within the second and
the zone offset in seconds east of UTC. -/
structure Time where
  year : Int
  month : Nat
  day : Nat
  hour : Nat
  minute : Nat
  second : Nat
  nanosecond : Nat
  offset : Int
deriving DecidableEq

/-! ## The type `float32`

`MediaFile.Duration` is a Go `float32` and `Stream.EstimatedContentLength`
computes with it. The model keeps the finite values as binary fractions
`m * 2 ^ e` and follows IEEE 754 single precision: every operation yields the
exact result rounded to nearest, ties to even; 24 significant bits; least
exponent `-149`; overflow from `2 ^ 128` on. Infinities and NaN are one value
`nonFinite`, and the two zeros are not told apart: neither distinction can
change the result of the one expression that is modelled.
-/

/-- A Go `float32` value: the finite number `m * 2 ^ e`, or a value that is not
finite (an infinity or a NaN). -/
inductive Float32 where
  | finite (m : Int) (e : Int)
  | nonFinite
deriving DecidableEq

/-- The loop behind `bitLength`, with `fuel` bounding the number of halvings. -/
def bitLengthAux : Nat → Nat → Nat
  | 0, _ => 0
  | fuel + 1, n => if n = 0 then 0 else bitLengthAux fuel (n / 2) + 1

/-- The number of binary digits of a natural number. -/
def bitLength (n : Nat) : Nat :=
  bitLengthAux n n

/-- Rounding of the exact number `m * 2 ^ e` to `float32`: to nearest, ties to
even, keeping 24 significant bits and no bit below `2 ^ (-149)`; a result of
magnitude `2 ^ 128` or more is not finite. Zero stays zero whatever the
exponent `e` is. -/
def Float32.round (m e : Int) : Float32 :=
  let n := m.natAbs
  let k : Int := max ((bitLength n : Int) - 24) (-149 - e)
  if k ≤ 0 then
    if m ≠ 0 ∧ (bitLength n : Int) + e > 128 then Float32.nonFinite else Float32.finite m e
  else
    let q := n / 2 ^ k.toNat
    let r := n % 2 ^ k.toNat
    let half := 2 ^ (k.toNat - 1)
    let q := if r > half ∨ (r = half ∧ q % 2 = 1) then q + 1 else q
    if (bitLength q : Int) + (e + k) > 128 then Float32.nonFinite
    else Float32.finite (if m < 0 then -(q : Int) else (q : Int)) (e + k)

/-- The conversion `float32(x)` of a Go `int`. -/
def Float32.ofInt (x : Int) : Float32 :=
  Float32.round x 0

/-- The product `x * y` of two `float32` values. -/
def Float32.mul : Float32 → Float32 → Float32
  | Float32.finite m1 e1, Float32.finite m2 e2 => Float32.round (m1 * m2) (e1 + e2)
  | _, _ => Float32.nonFinite

/-- The quotient `x / 2 ^ k` of a `float32` value by a power of two. -/
def Float32.divPow2 : Float32 → Nat → Float32
  | Float32.finite m e, k => Float32.round m (e - k)
  | Float32.nonFinite, _ => Float32.nonFinite

/-- The integer part of `m * 2 ^ e`, the fraction being discarded (truncation
towards zero). -/
def truncDyadic (m e : Int) : Int :=
  if 0 ≤ e then m * ((2 ^ e.toNat : Nat) : Int) else Int.tdiv m ((2 ^ (-e).toNat : Nat) : Int)

/-- The conversion `int(x)` of a `float32` to a 64-bit Go `int`: the fraction is
discarded. When the value is not finite or its integer part does not fit, the Go
specification leaves the result to the implementation; this is `none`. -/
def Float32.toInt : Float32 → Option Int
  | Float32.finite m e =>
    if -(2 ^ 63 : Int) ≤ truncDyadic m e ∧ truncDyadic m e < (2 ^ 63 : Int) then
      some (truncDyadic m e)
    else none
  | Float32.nonFinite => none

/-- The fields of `model.MediaFile` read by the streamer. -/
structure MediaFile where
  ID : String
  Path : String
  Title : String
  Suffix : String
  BitRate : Int
  UpdatedAt : Time
  Duration : Float32 := Float32.finite 0 0
deriving DecidableEq

/-- Lines 161-183 of `selectTranscodingOptions`: the values of the local
variables `(cFormat, cBitRate)` when line 184 is reached. -/
def candidate (ctx : Context) (defaultDownsamplingFormat : String) (mf : MediaFile)
    (reqFormat : String) (reqBitRate : Int) : String × Int :=
  let c : String × Int :=
    if reqFormat ≠ "" then
      (reqFormat, 0)
    else
      match ctx.transcoding with
      | some trc =>
        (trc.TargetFormat,
          match ctx.player with
          | some p => p.MaxBitRate
          | none => trc.DefaultBitRate)
      | none =>
        if reqBitRate > 0 ∧ reqBitRate < mf.BitRate ∧ defaultDownsamplingFormat ≠ "" then
          (defaultDownsamplingFormat, 0)
        else
          ("", 0)
  if reqBitRate > 0 then (c.1, reqBitRate) else c

/-- Lines 190-197: the values of `(format, bitRate)` after the rule lookup for
the candidate; on a failed lookup both keep their initial values. -/
def resolve (found : Option Transcoding) (cBitRate : Int) : String × Int :=
  match found with
  | some t => (t.TargetFormat, if cBitRate ≠ 0 then cBitRate else t.DefaultBitRate)
  | none => ("raw", 0)

/-- Lines 199-203: the downgrade guard. -/
def downgradeGuard (mf : MediaFile) (r : String × Int) : String × Int :=
  if r.1 = mf.Suffix ∧ r.2 ≥ mf.BitRate then ("raw", 0) else r

/-- The function `selectTranscodingOptions`, returning the pair
`(format, bitRate)` together with the list of format names passed to
`FindByFormat`, in call order. -/
def selectTranscodingOptionsLog (ctx : Context) (ds : DataStore)
    (defaultDownsamplingFormat : String) (mf : MediaFile)
    (reqFormat : String) (reqBitRate : Int) : (String × Int) × List String :=
  if reqFormat = "raw" then
    (("raw", 0), [])
  else if reqFormat = mf.Suffix ∧ reqBitRate = 0 then
    (("raw", mf.BitRate), [])
  else
    let c := candidate ctx defaultDownsamplingFormat mf reqFormat reqBitRate
    if c.2 = 0 ∧ c.1 = "" then
      (("raw", 0), [])
    else
      (downgradeGuard mf (resolve (ds.FindByFormat c.1) c.2), [c.1])

/-- The result `(format, bitRate)` of `selectTranscodingOptions`. -/
def selectTranscodingOptions (ctx : Context) (ds : DataStore)
    (defaultDownsamplingFormat : String) (mf : MediaFile)
    (reqFormat : String) (reqBitRate : Int) : String × Int :=
  (selectTranscodingOptionsLog ctx ds defaultDownsamplingFormat mf reqFormat reqBitRate).1

/-- The format names looked up in the rule store by one call. -/
def lookups (ctx : Context) (ds : DataStore)
    (defaultDownsamplingFormat : String) (mf : MediaFile)
    (reqFormat : String) (reqBitRate : Int) : List String :=
  (selectTranscodingOptionsLog ctx ds defaultDownsamplingFormat mf reqFormat reqBitRate).2

/-! ## Stream job keys

`streamJob.Key` renders its four fields with `fmt.Sprintf("%s.%s.%d.%s", ...)`.
The two library renderings it relies on are modelled after the Go standard
library: `%d` is the signed decimal numeral, and
`Time.Format(time.RFC3339Nano)` follows `appendFormatRFC3339` of package `time`
(layout `2006-01-02T15:04:05.999999999Z07:00`).
-/

/-- Go `appendInt` of package `time`: an optional minus sign, zero padding up to
`width` digits, then the decimal digits of the magnitude. -/
def appendInt (b : String) (x : Int) (width : Nat) : String :=
  let ds := Nat.toDigits 10 x.natAbs
  (if x < 0 then b ++ "-" else b) ++ String.mk (List.replicate (width - ds.length) '0')
    ++ String.mk ds

/-- Removal of the trailing zeros of a digit string. -/
def trimTrailingZeros (l : List Char) : List Char :=
  (l.reverse.dropWhile (fun c => c == '0')).reverse

/-- Go `appendNano` for the layout element `.999999999`: nothing at all for a
zero nanosecond, otherwise a dot and the nine-digit fraction without its
trailing zeros. -/
def appendNano (b : String) (nanosec : Nat) : String :=
  if nanosec = 0 then b
  else b ++ "." ++ String.mk (trimTrailingZeros (appendInt "" nanosec 9).data)

/-- Go `Time.Format(time.RFC3339Nano)`. -/
def formatRFC3339Nano (t : Time) : String :=
  let b := appendInt "" t.year 4
  let b := b ++ "-"
  let b := appendInt b t.month 2
  let b := b ++ "-"
  let b := appendInt b t.day 2
  let b := b ++ "T"
  let b := appendInt b t.hour 2
  let b := b ++ ":"
  let b := appendInt b t.minute 2
  let b := b ++ ":"
  let b := appendInt b t.second 2
  let b := appendNano b t.nanosecond
  if t.offset = 0 then b ++ "Z"
  else
    let zone := Int.tdiv t.offset 60
    let b := if zone < 0 then b ++ "-" else b ++ "+"
    let zone := if zone < 0 then -zone else zone
    let b := appendInt b (zone / 60) 2
    let b := b ++ ":"
    appendInt b (zone % 60) 2

/-- The verb `%d` of `fmt.Sprintf` applied to a Go `int`. -/
def formatInt (x : Int) : String :=
  if x < 0 then "-" ++ String.mk (Nat.toDigits 10 x.natAbs)
  else String.mk (Nat.toDigits 10 x.natAbs)

/-- The type `streamJob` without its back pointer to the streamer. -/
structure streamJob where
  mf : MediaFile
  format : String
  bitRate : Int
deriving DecidableEq

/-- The method `streamJob.Key`. -/
def streamJob.Key (j : streamJob) : String :=
  j.mf.ID ++ "." ++ formatRFC3339Nano j.mf.UpdatedAt ++ "." ++ formatInt j.bitRate ++ "."
    ++ j.format

/-! ## Streams

`DoStream` opens the source file with `os.Open` or asks the transcoding cache
with `cache.Get`. Both are passed in as functions that yield a handle or an
error, and `DoStream` returns, next to its result, the list of the calls it made
to them.
-/

/-- A handle returned by `os.Open`, with the name of the file it was opened
from. -/
structure File where
  name : String
deriving DecidableEq

/-- The type `cache.CachedStream`: whether its `Seeker` is set (not nil), and its
flag `Cached`. -/
structure CachedStream where
  hasSeeker : Bool
  Cached : Bool
deriving DecidableEq

/-- What a stream reads from: the source file or a stream of the transcoding
cache. -/
inductive Source where
  | file (f : File)
  | cache (r : CachedStream)
deriving DecidableEq

/-- The type `Stream`, without its context; `Seeker` is `none` for a nil
interface value. -/
structure Stream where
  mf : MediaFile
  bitRate : Int
  format : String
  ReadCloser : Source
  Seeker : Option Source
deriving DecidableEq

/-- The method `Stream.Seekable`. -/
def Stream.Seekable (s : Stream) : Bool :=
  s.Seeker.isSome

/-- The method `Stream.Name`. -/
def Stream.Name (s : Stream) : String :=
  s.mf.Title ++ "." ++ s.format

/-- The method `Stream.EstimatedContentLength`:
`int(s.mf.Duration * float32(s.bitRate) / 8 * 1024)`, with `8 = 2 ^ 3` and
`1024 = 1 * 2 ^ 10`. -/
def Stream.EstimatedContentLength (s : Stream) : Option Int :=
  (((s.mf.Duration.mul (Float32.ofInt s.bitRate)).divPow2 3).mul (Float32.finite 1 10)).toInt

/-- The file system as `DoStream` uses it: `os.Open`. -/
structure FileSystem where
  Open : String → Except String File

/-- The transcoding cache as `DoStream` uses it: `cache.Get`. -/
structure FileCache where
  Get : streamJob → Except String CachedStream

/-- The fields of `mediaStreamer` used by `DoStream`. -/
structure mediaStreamer where
  ds : DataStore
  cache : FileCache

/-- A call made by `DoStream` to the file system or to the transcoding cache. -/
inductive Call where
  | osOpen (name : String)
  | cacheGet (job : streamJob)
deriving DecidableEq

/-- The method `mediaStreamer.DoStream`: the stream or the error it returns, and
the calls it made. -/
def mediaStreamer.DoStream (ms : mediaStreamer) (os : FileSystem) (ctx : Context)
    (defaultDownsamplingFormat : String) (mf : MediaFile)
    (reqFormat : String) (reqBitRate : Int) : Except String Stream × List Call :=
  let r := selectTranscodingOptions ctx ms.ds defaultDownsamplingFormat mf reqFormat reqBitRate
  let format := r.1
  let bitRate := r.2
  if format = "raw" then
    match os.Open mf.Path with
    | Except.error err => (Except.error err, [Call.osOpen mf.Path])
    | Except.ok f =>
      (Except.ok { mf := mf, bitRate := bitRate, format := mf.Suffix,
                   ReadCloser := Source.file f, Seeker := some (Source.file f) },
        [Call.osOpen mf.Path])
  else
    let job : streamJob := { mf := mf, format := format, bitRate := bitRate }
    match ms.cache.Get job with
    | Except.error err => (Except.error err, [Call.cacheGet job])
    | Except.ok c =>
      (Except.ok { mf := mf, bitRate := bitRate, format := format,
                   ReadCloser := Source.cache c,
                   Seeker := if c.hasSeeker then some (Source.cache c) else none },
        [Call.cacheGet job])

/-! ## Character-level view of the renderings (used in the proofs about keys) -/

/-- The number denoted by a string of decimal digits. -/
def decimalValue (l : List Char) : Nat :=
  l.foldl (fun acc c => 10 * acc + (c.toNat - 48)) 0

/-- The characters `appendInt` appends to its buffer. -/
def intChars (x : Int) (width : Nat) : List Char :=
  (if x < 0 then ['-'] else [])
    ++ (List.replicate (width - (Nat.toDigits 10 x.natAbs).length) '0'
      ++ Nat.toDigits 10 x.natAbs)

/-- The characters `appendNano` appends to its buffer. -/
def nanoChars (nanosec : Nat) : List Char :=
  if nanosec = 0 then [] else '.' :: trimTrailingZeros (intChars nanosec 9)

/-- The characters of the zone element `Z07:00` for a zone offset in seconds. -/
def zoneChars (offset : Int) : List Char :=
  if offset = 0 then ['Z']
  else
    (if Int.tdiv offset 60 < 0 then '-' else '+') ::
      (intChars ((if Int.tdiv offset 60 < 0 then -Int.tdiv offset 60 else Int.tdiv offset 60) / 60) 2
        ++ ':' ::
        intChars ((if Int.tdiv offset 60 < 0 then -Int.tdiv offset 60 else Int.tdiv offset 60) % 60) 2)

/-- A list of characters has the shape of an RFC 3339 timestamp: a date of
digits and hyphens, the letter `T`, a clock reading of digits and colons, an
optional fraction (a dot and digits) and a zone that starts with `Z`, `+` or `-`
and contains no dot. -/
def IsStamp (l : List Char) : Prop :=
  ∃ date clock frac zone : List Char,
    l = date ++ 'T' :: (clock ++ (frac ++ zone)) ∧
    (∀ c ∈ date, c.isDigit = true ∨ c = '-') ∧
    (∀ c ∈ clock, c.isDigit = true ∨ c = ':') ∧
    (frac = [] ∨ ∃ ds, frac = '.' :: ds ∧ ∀ c ∈ ds, c.isDigit = true) ∧
    (∃ z rest, zone = z :: rest ∧ (z = 'Z' ∨ z = '+' ∨ z = '-')) ∧
    (∀ c ∈ zone, c ≠ '.')

/-! ## Concrete inputs -/

/-- A timestamp: 9 July 2023, 13:41:22 UTC. -/
def sampleTime : Time :=
  { year := 2023, month := 7, day := 9, hour := 13, minute := 41, second := 22,
    nanosecond := 0, offset := 0 }

/-- A FLAC source file at 1000 kbps. -/
def flacFile : MediaFile :=
  { ID := "f1", Path := "/music/song.flac", Title := "song", Suffix := "flac",
    BitRate := 1000, UpdatedAt := sampleTime }

/-- An MP3 source file at 128 kbps. -/
def mp3File : MediaFile :=
  { ID := "m1", Path := "/music/song.mp3", Title := "song", Suffix := "mp3",
    BitRate := 128, UpdatedAt := sampleTime }

/-- A source file whose suffix is the word `raw`. -/
def rawSuffixFile : MediaFile :=
  { ID := "r1", Path := "/music/song.raw", Title := "song", Suffix := "raw",
    BitRate := 128, UpdatedAt := sampleTime }

/-- A source file without a suffix. -/
def noSuffixFile : MediaFile :=
  { ID := "n1", Path := "/music/song", Title := "song", Suffix := "",
    BitRate := 320, UpdatedAt := sampleTime }

/-- A request context without caller profile and without device profile. -/
def anonymous : Context := { transcoding := none, player := none }

/-- A rule store without rules. -/
def emptyStore : DataStore := { FindByFormat := fun _ => none }

/-- The rule `mp3` with default bit rate 192. -/
def mp3Rule : Transcoding :=
  { TargetFormat := "mp3", Command := "ffmpeg -i %s -b:a %bk -f mp3 -", DefaultBitRate := 192 }

/-- The rule `opus` with default bit rate 128. -/
def opusRule : Transcoding :=
  { TargetFormat := "opus", Command := "ffmpeg -i %s -b:a %bk -f opus -", DefaultBitRate := 128 }

/-- A rule store with the rules `mp3` and `opus`. -/
def sampleStore : DataStore :=
  { FindByFormat := fun f =>
      if f = "mp3" then some mp3Rule else if f = "opus" then some opusRule else none }

/-- A rule store that also answers for the empty format name. -/
def emptyNameStore : DataStore :=
  { FindByFormat := fun f => if f = "" then some mp3Rule else none }

/-- A caller profile for `mp3` with default bit rate 192 and a device profile
whose max bit rate is 0. -/
def profileWithUnsetDevice : Context :=
  { transcoding := some mp3Rule, player := some { MaxBitRate := 0 } }

/-- A caller profile for `opus` with default bit rate 192 and a device profile
whose max bit rate is 0. -/
def opusProfileWithUnsetDevice : Context :=
  { transcoding := some { TargetFormat := "opus", Command := "", DefaultBitRate := 192 },
    player := some { MaxBitRate := 0 } }

/-- A caller profile for `mp3` with default bit rate 192 and no device profile. -/
def profileOnly : Context := { transcoding := some mp3Rule, player := none }

/-- A caller profile with empty target format and default bit rate 0. -/
def blankProfile : Context :=
  { transcoding := some { TargetFormat := "", Command := "", DefaultBitRate := 0 },
    player := none }

/-- A job for a media file whose id contains dots. -/
def dottedIdJob : streamJob :=
  { mf := { flacFile with ID := "a.2023-07-09T13:41:22Z.5" }, format := "mp3", bitRate := 5 }

/-- A job for a media file with id `a` and a target format name that contains
dots. -/
def dottedFormatJob : streamJob :=
  { mf := { flacFile with ID := "a" }, format := "2023-07-09T13:41:22Z.5.mp3", bitRate := 5 }

/-- The FLAC file transcoded to MP3 at 192 kbps. -/
def flacToMp3Job : streamJob := { mf := flacFile, format := "mp3", bitRate := 192 }

/-- The FLAC file transcoded to Opus at 128 kbps. -/
def flacToOpusJob : streamJob := { mf := flacFile, format := "opus", bitRate := 128 }

/-- The FLAC file with bit rate 1 and a target format name made of a digit, a dot
and `mp3`. -/
def digitDotFormatJob : streamJob := { mf := flacFile, format := "2.mp3", bitRate := 1 }

/-- The FLAC file transcoded to MP3 with bit rate 12. -/
def flacToMp3At12Job : streamJob := { mf := flacFile, format := "mp3", bitRate := 12 }

/-- The number denoted by a `float32` value (0 for a value that is not finite). -/
def Float32.toRat : Float32 → ℚ
  | Float32.finite m e => (m : ℚ) * (2 : ℚ) ^ e
  | Float32.nonFinite => 0

/-- The rational number `q` is a finite `float32` value: an integer of fewer than
25 bits times a power of two with exponent from `-149` to `104`. -/
def Float32.Representable (q : ℚ) : Prop :=
  ∃ M E : Int, M.natAbs < 2 ^ 24 ∧ -149 ≤ E ∧ E ≤ 104 ∧ q = (M : ℚ) * (2 : ℚ) ^ E

/-- The `float32` value `x` is finite and denotes the rational number `q`. -/
def Float32.Denotes (x : Float32) (q : ℚ) : Prop :=
  ∃ m e : Int, x = Float32.finite m e ∧ (m : ℚ) * (2 : ℚ) ^ e = q

/-- Truncation of a rational number towards zero. -/
def truncRat (q : ℚ) : Int :=
  if 0 ≤ q then ⌊q⌋ else ⌈q⌉

/-- A stream of the cache for a file of 8 seconds at 128 kbps. -/
def eightSecondStream : Stream :=
  { mf := { flacFile with Duration := Float32.finite 1 3 }, bitRate := 128, format := "mp3",
    ReadCloser := Source.cache { hasSeeker := false, Cached := false }, Seeker := none }

/-- A stream whose duration `2 ^ 24 - 1` and bit rate 3 have a product that is
not a `float32` value. -/
def inexactProductStream : Stream :=
  { mf := { flacFile with Duration := Float32.finite 16777215 0 }, bitRate := 3,
    format := "mp3",
    ReadCloser := Source.cache { hasSeeker := false, Cached := false }, Seeker := none }

/-- A stream for a file of `14092861 * 2 ^ (-16)` seconds (about 215.04) at 128
kbps. -/
def fullSignificandStream : Stream :=
  { mf := { flacFile with Duration := Float32.finite 14092861 (-16) }, bitRate := 128,
    format := "mp3",
    ReadCloser := Source.cache { hasSeeker := false, Cached := false }, Seeker := none }

/-- A file system in which every file can be opened. -/
def openAll : FileSystem := { Open := fun name => Except.ok { name := name } }

/-- A file system in which no file can be opened. -/
def openNone : FileSystem := { Open := fun _ => Except.error "no such file or directory" }

/-- A streamer over the sample rule store whose cache hands out a stream that is
not seekable. -/
def sampleStreamer : mediaStreamer :=
  { ds := sampleStore,
    cache := { Get := fun _ => Except.ok { hasSeeker := false, Cached := false } } }

/-! ## Negotiation: `selectTranscodingOptions` -/

/-- When none of the three early returns fires, the result is the guarded
outcome of the rule lookup for the candidate format, and exactly that lookup is
performed. -/
theorem selectTranscodingOptionsLog_reached (ctx : Context) (ds : DataStore) (dflt : String)
    (mf : MediaFile) (reqFormat : String) (reqBitRate : Int)
    (hraw : reqFormat ≠ "raw") (hshort : ¬ (reqFormat = mf.Suffix ∧ reqBitRate = 0))
    (hcand : ¬ ((candidate ctx dflt mf reqFormat reqBitRate).2 = 0 ∧
      (candidate ctx dflt mf reqFormat reqBitRate).1 = "")) :
    selectTranscodingOptionsLog ctx ds dflt mf reqFormat reqBitRate
      = (downgradeGuard mf (resolve (ds.FindByFormat
            (candidate ctx dflt mf reqFormat reqBitRate).1)
            (candidate ctx dflt mf reqFormat reqBitRate).2),
          [(candidate ctx dflt mf reqFormat reqBitRate).1]) := by
  unfold selectTranscodingOptionsLog
  rw [if_neg hraw, if_neg hshort]
  simp only []
  rw [if_neg hcand]

/-- The guard never lets a non-raw source format through at a bit rate that is
not below the source bit rate. -/
theorem downgradeGuard_sound (mf : MediaFile) (r : String × Int) :
    ¬ ((downgradeGuard mf r).1 ≠ "raw" ∧ (downgradeGuard mf r).1 = mf.Suffix ∧
        (downgradeGuard mf r).2 ≥ mf.BitRate) := by
  unfold downgradeGuard
  by_cases h : r.1 = mf.Suffix ∧ r.2 ≥ mf.BitRate
  · rw [if_pos h]
    simp
  · rw [if_neg h]
    intro hc
    exact h ⟨hc.2.1, hc.2.2⟩

/-- A request for format `raw` takes the first early return. -/
theorem selectTranscodingOptions_raw (ctx : Context) (ds : DataStore) (dflt : String) (mf : MediaFile)
    (reqBitRate : Int) :
    selectTranscodingOptions ctx ds dflt mf "raw" reqBitRate = ("raw", 0) := by
  unfold selectTranscodingOptions selectTranscodingOptionsLog
  rw [if_pos rfl]

/-- C1: a request for format `raw` resolves to `("raw", 0)`, whatever the media
file, the caller and device profiles, the configuration, the rule store and the
requested bit rate are. -/
theorem C1_raw_request (ctx : Context) (ds : DataStore) (dflt : String) (mf : MediaFile)
    (reqBitRate : Int) :
    selectTranscodingOptions ctx ds dflt mf "raw" reqBitRate = ("raw", 0) := by
  simp [selectTranscodingOptions, selectTranscodingOptionsLog]

/-- C2 as stated fails: for a source file with suffix `raw` at 128 kbps, a request
for format `raw` with bit rate 0 has the requested format equal to the source
format, yet the result is `("raw", 0)` and not `("raw", 128)`. -/
theorem C2_counterexample :
    ("raw" = rawSuffixFile.Suffix ∧ (0 : Int) = 0) ∧
    selectTranscodingOptions anonymous emptyStore "" rawSuffixFile "raw" 0 = ("raw", 0) ∧
    selectTranscodingOptions anonymous emptyStore "" rawSuffixFile "raw" 0
      ≠ ("raw", rawSuffixFile.BitRate) := by
  decide

/-- C2 (amended): when the requested format equals the source format and the
requested bit rate is 0, the result is `("raw", source bit rate)` unless the
requested format is the word `raw` itself, in which case it is `("raw", 0)`. -/
theorem C2_same_format_zero_bitrate (ctx : Context) (ds : DataStore) (dflt : String)
    (mf : MediaFile) (reqFormat : String) (hsame : reqFormat = mf.Suffix) :
    selectTranscodingOptions ctx ds dflt mf reqFormat 0
      = ("raw", if reqFormat = "raw" then 0 else mf.BitRate) := by
  unfold selectTranscodingOptions selectTranscodingOptionsLog
  by_cases hraw : reqFormat = "raw"
  · rw [if_pos hraw, if_pos hraw]
  · rw [if_neg hraw, if_pos ⟨hsame, rfl⟩, if_neg hraw]

/-- Witness for C2 (amended): an MP3 file at 128 kbps requested as `mp3` with
bit rate 0. -/
theorem C2_same_format_zero_bitrate_witness :
    "mp3" = mp3File.Suffix ∧
    selectTranscodingOptions anonymous sampleStore "opus" mp3File "mp3" 0
      = ("raw", if "mp3" = "raw" then 0 else mp3File.BitRate) :=
  ⟨by decide, C2_same_format_zero_bitrate anonymous sampleStore "opus" mp3File "mp3" (by decide)⟩

/-- C3: downgrade guard. The result is never a non-raw format equal to the source
format at a bit rate greater than or equal to the source bit rate; and whenever
the rule lookup is reached and resolves to the source format at a bit rate
greater than or equal to the source bit rate, the result is `("raw", 0)`. -/
theorem C3_downgrade_guard (ctx : Context) (ds : DataStore) (dflt : String) (mf : MediaFile)
    (reqFormat : String) (reqBitRate : Int) :
    ¬ ((selectTranscodingOptions ctx ds dflt mf reqFormat reqBitRate).1 ≠ "raw" ∧
        (selectTranscodingOptions ctx ds dflt mf reqFormat reqBitRate).1 = mf.Suffix ∧
        (selectTranscodingOptions ctx ds dflt mf reqFormat reqBitRate).2 ≥ mf.BitRate) ∧
    ∀ t : Transcoding,
      reqFormat ≠ "raw" →
      ¬ (reqFormat = mf.Suffix ∧ reqBitRate = 0) →
      ¬ ((candidate ctx dflt mf reqFormat reqBitRate).2 = 0 ∧
          (candidate ctx dflt mf reqFormat reqBitRate).1 = "") →
      ds.FindByFormat (candidate ctx dflt mf reqFormat reqBitRate).1 = some t →
      t.TargetFormat = mf.Suffix →
      (if (candidate ctx dflt mf reqFormat reqBitRate).2 ≠ 0
        then (candidate ctx dflt mf reqFormat reqBitRate).2 else t.DefaultBitRate) ≥ mf.BitRate →
      selectTranscodingOptions ctx ds dflt mf reqFormat reqBitRate = ("raw", 0) := by
  constructor
  · by_cases hraw : reqFormat = "raw"
    · simp [selectTranscodingOptions, selectTranscodingOptionsLog, hraw]
    by_cases hshort : reqFormat = mf.Suffix ∧ reqBitRate = 0
    · unfold selectTranscodingOptions selectTranscodingOptionsLog
      rw [if_neg hraw, if_pos hshort]
      simp
    by_cases hcand : (candidate ctx dflt mf reqFormat reqBitRate).2 = 0 ∧
        (candidate ctx dflt mf reqFormat reqBitRate).1 = ""
    · unfold selectTranscodingOptions selectTranscodingOptionsLog
      rw [if_neg hraw, if_neg hshort]
      simp only []
      rw [if_pos hcand]
      simp
    · unfold selectTranscodingOptions
      rw [selectTranscodingOptionsLog_reached ctx ds dflt mf reqFormat reqBitRate hraw hshort hcand]
      exact downgradeGuard_sound mf _
  · intro t hraw hshort hcand hfind htarget hrate
    unfold selectTranscodingOptions
    rw [selectTranscodingOptionsLog_reached ctx ds dflt mf reqFormat reqBitRate hraw hshort hcand,
      hfind]
    unfold resolve downgradeGuard
    exact if_pos ⟨htarget, hrate⟩

/-- Witness for C3: an MP3 file at 128 kbps requested as `mp3` at 320 kbps; the
rule lookup for `mp3` resolves to the source format at 320 >= 128. -/
theorem C3_downgrade_guard_witness :
    ("mp3" ≠ "raw" ∧ ¬ ("mp3" = mp3File.Suffix ∧ (320 : Int) = 0) ∧
      sampleStore.FindByFormat (candidate anonymous "opus" mp3File "mp3" 320).1 = some mp3Rule ∧
      mp3Rule.TargetFormat = mp3File.Suffix) ∧
    selectTranscodingOptions anonymous sampleStore "opus" mp3File "mp3" 320 = ("raw", 0) :=
  ⟨by decide,
    (C3_downgrade_guard anonymous sampleStore "opus" mp3File "mp3" 320).2 mp3Rule
      (by decide) (by decide) (by decide) (by decide) (by decide) (by decide)⟩

/-- C4: silent fallback. When the rule lookup is reached (the requested format is
not `raw`, the same-format shortcut does not apply, and candidate format and
candidate bit rate are not both empty/zero) and the lookup for the candidate
format fails, the result is exactly `("raw", 0)`; the lookup for the candidate
format is the only one made. -/
theorem C4_silent_fallback (ctx : Context) (ds : DataStore) (dflt : String) (mf : MediaFile)
    (reqFormat : String) (reqBitRate : Int)
    (hraw : reqFormat ≠ "raw") (hshort : ¬ (reqFormat = mf.Suffix ∧ reqBitRate = 0))
    (hcand : ¬ ((candidate ctx dflt mf reqFormat reqBitRate).2 = 0 ∧
      (candidate ctx dflt mf reqFormat reqBitRate).1 = ""))
    (hfail : ds.FindByFormat (candidate ctx dflt mf reqFormat reqBitRate).1 = none) :
    selectTranscodingOptions ctx ds dflt mf reqFormat reqBitRate = ("raw", 0) ∧
    lookups ctx ds dflt mf reqFormat reqBitRate
      = [(candidate ctx dflt mf reqFormat reqBitRate).1] := by
  unfold selectTranscodingOptions lookups
  rw [selectTranscodingOptionsLog_reached ctx ds dflt mf reqFormat reqBitRate hraw hshort hcand,
    hfail]
  refine ⟨?_, rfl⟩
  show downgradeGuard mf ("raw", 0) = ("raw", 0)
  unfold downgradeGuard
  split_ifs <;> rfl

/-- Witness for C4: a FLAC file requested as `ogg`, for which the store has no
rule. -/
theorem C4_silent_fallback_witness :
    ("ogg" ≠ "raw" ∧ ¬ ("ogg" = flacFile.Suffix ∧ (0 : Int) = 0) ∧
      ¬ ((candidate anonymous "opus" flacFile "ogg" 0).2 = 0 ∧
        (candidate anonymous "opus" flacFile "ogg" 0).1 = "") ∧
      sampleStore.FindByFormat (candidate anonymous "opus" flacFile "ogg" 0).1 = none) ∧
    (selectTranscodingOptions anonymous sampleStore "opus" flacFile "ogg" 0 = ("raw", 0) ∧
      lookups anonymous sampleStore "opus" flacFile "ogg" 0
        = [(candidate anonymous "opus" flacFile "ogg" 0).1]) :=
  ⟨by decide,
    C4_silent_fallback anonymous sampleStore "opus" flacFile "ogg" 0
      (by decide) (by decide) (by decide) (by decide)⟩

/-- C5: explicit format with rule default bit rate. For a requested format `F`
that is non-empty, not `raw` and different from the source format, with requested
bit rate 0 and a rule `(T, RD)` found for `F`, the result is `(T, RD)`, unless
`T` is the source format and `RD` is at least the source bit rate, when it is
`("raw", 0)`. Neither the caller profile, the device profile nor the default
downsampling format enters the result. For a FLAC source at 1000, request `mp3`
with bit rate 0 and rule `("mp3", 192)` the result is `("mp3", 192)`. -/
theorem C5_explicit_format_rule_default :
    (∀ (ctx : Context) (ds : DataStore) (dflt : String) (mf : MediaFile) (F : String)
      (t : Transcoding),
      F ≠ "" → F ≠ "raw" → F ≠ mf.Suffix → ds.FindByFormat F = some t →
      selectTranscodingOptions ctx ds dflt mf F 0
        = if t.TargetFormat = mf.Suffix ∧ t.DefaultBitRate ≥ mf.BitRate then ("raw", 0)
          else (t.TargetFormat, t.DefaultBitRate)) ∧
    selectTranscodingOptions anonymous sampleStore "" flacFile "mp3" 0 = ("mp3", 192) := by
  refine ⟨?_, by decide⟩
  intro ctx ds dflt mf F t hne hraw hsrc hfind
  have hc : candidate ctx dflt mf F 0 = (F, 0) := by
    unfold candidate
    simp [hne]
  unfold selectTranscodingOptions
  rw [selectTranscodingOptionsLog_reached ctx ds dflt mf F 0 hraw
    (fun h => hsrc h.1) (by rw [hc]; exact fun h => hne h.2), hc]
  simp only [hfind, resolve, downgradeGuard]
  simp

/-- Witness for C5: the general statement applied to the FLAC file with a caller
profile and a device profile present. -/
theorem C5_explicit_format_rule_default_witness :
    ("mp3" ≠ "" ∧ "mp3" ≠ "raw" ∧ "mp3" ≠ flacFile.Suffix ∧
      sampleStore.FindByFormat "mp3" = some mp3Rule) ∧
    selectTranscodingOptions profileWithUnsetDevice sampleStore "opus" flacFile "mp3" 0
      = if mp3Rule.TargetFormat = flacFile.Suffix ∧ mp3Rule.DefaultBitRate ≥ flacFile.BitRate
        then ("raw", 0) else (mp3Rule.TargetFormat, mp3Rule.DefaultBitRate) :=
  ⟨by decide,
    C5_explicit_format_rule_default.1 profileWithUnsetDevice sampleStore "opus" flacFile "mp3"
      mp3Rule (by decide) (by decide) (by decide) (by decide)⟩

/-- C6: downsampling skipped. With empty requested format, no caller profile and
a requested bit rate that is positive and not below the source bit rate, the
only rule lookup is the one for the empty format name; a configured (non-empty)
downsampling default is never looked up; and when there is no rule under the
empty name the result is `("raw", 0)`. -/
theorem C6_downsampling_skipped (ctx : Context) (ds : DataStore) (dflt : String)
    (mf : MediaFile) (reqBitRate : Int)
    (hctx : ctx.transcoding = none) (hpos : reqBitRate > 0) (hge : reqBitRate ≥ mf.BitRate) :
    lookups ctx ds dflt mf "" reqBitRate = [""] ∧
    (dflt ≠ "" → dflt ∉ lookups ctx ds dflt mf "" reqBitRate) ∧
    (ds.FindByFormat "" = none →
      selectTranscodingOptions ctx ds dflt mf "" reqBitRate = ("raw", 0)) := by
  have hc : candidate ctx dflt mf "" reqBitRate = ("", reqBitRate) := by
    unfold candidate
    have hlt : ¬ reqBitRate < mf.BitRate := by omega
    simp [hctx, hpos, hlt]
  have hlog := selectTranscodingOptionsLog_reached ctx ds dflt mf "" reqBitRate (by decide)
    (fun h => by omega) (by rw [hc]; exact fun h => by have := h.1; simp at this; omega)
  rw [hc] at hlog
  have hl : lookups ctx ds dflt mf "" reqBitRate = [""] := by
    unfold lookups
    rw [hlog]
  refine ⟨hl, ?_, ?_⟩
  · intro hd hmem
    rw [hl] at hmem
    simp at hmem
    exact hd hmem
  · intro hfail
    unfold selectTranscodingOptions
    rw [hlog, hfail]
    show downgradeGuard mf ("raw", 0) = ("raw", 0)
    unfold downgradeGuard
    split_ifs <;> rfl

/-- Witness for C6: an MP3 source at 128, empty requested format, requested bit
rate 320, default downsampling format `opus` with a rule for it in the store:
the result is raw. -/
theorem C6_downsampling_skipped_witness :
    (anonymous.transcoding = none ∧ (320 : Int) > 0 ∧ (320 : Int) ≥ mp3File.BitRate ∧
      sampleStore.FindByFormat "opus" = some opusRule) ∧
    lookups anonymous sampleStore "opus" mp3File "" 320 = [""] ∧
    "opus" ∉ lookups anonymous sampleStore "opus" mp3File "" 320 ∧
    selectTranscodingOptions anonymous sampleStore "opus" mp3File "" 320 = ("raw", 0) :=
  have h := C6_downsampling_skipped anonymous sampleStore "opus" mp3File 320
    (by decide) (by decide) (by decide)
  ⟨by decide, h.1, h.2.1 (by decide), h.2.2 (by decide)⟩

/-- C7 as stated fails in three ways.
(1) A device profile whose max bit rate is 0 still overrides the profile default:
with caller profile `("opus", 192)`, device max bit rate 0 and rule `("opus", 128)`
found, the candidate bit rate is 0, not 192, and the result is `("opus", 128)`,
not `("opus", 192)`.
(2) For a source file without suffix the same-format shortcut answers first:
the result is `("raw", source bit rate)`, not the rule outcome.
(3) A caller profile with empty target format and default bit rate 0 never
reaches the lookup, even when a rule is registered under the empty name. -/
theorem C7_counterexample :
    (sampleStore.FindByFormat "opus" = some opusRule ∧
      (candidate opusProfileWithUnsetDevice "" flacFile "" 0).2 = 0 ∧
      (candidate opusProfileWithUnsetDevice "" flacFile "" 0).2 ≠ 192 ∧
      selectTranscodingOptions opusProfileWithUnsetDevice sampleStore "" flacFile "" 0
        = ("opus", 128) ∧
      selectTranscodingOptions opusProfileWithUnsetDevice sampleStore "" flacFile "" 0
        ≠ ("opus", 192)) ∧
    (sampleStore.FindByFormat mp3Rule.TargetFormat = some mp3Rule ∧
      selectTranscodingOptions profileOnly sampleStore "" noSuffixFile "" 0 = ("raw", 320) ∧
      selectTranscodingOptions profileOnly sampleStore "" noSuffixFile "" 0 ≠ ("mp3", 192)) ∧
    (emptyNameStore.FindByFormat "" = some mp3Rule ∧
      selectTranscodingOptions blankProfile emptyNameStore "" flacFile "" 0 = ("raw", 0) ∧
      selectTranscodingOptions blankProfile emptyNameStore "" flacFile "" 0 ≠ ("mp3", 192)) := by
  decide

/-- C7 (amended): caller profile branch. For a source file with a non-empty
suffix, empty requested format, requested bit rate 0, a caller profile `(F, D)`
and a rule `(T, RD)` found for `F`: the candidate format is `F` and the candidate
bit rate is `D` when there is no device profile and the device max bit rate `M`
whenever a device profile is present, also for `M = 0`. When the candidate bit
rate is 0 and `F` is empty, the result is `("raw", 0)` and no rule lookup is
made. Otherwise the only lookup is the one for `F` and the result is
`(T, candidate bit rate if non-zero else RD)`, subject only to the downgrade
guard. -/
theorem C7_caller_profile (ctx : Context) (ds : DataStore) (dflt : String) (mf : MediaFile)
    (trc t : Transcoding)
    (hsuffix : mf.Suffix ≠ "") (hprofile : ctx.transcoding = some trc)
    (hfind : ds.FindByFormat trc.TargetFormat = some t) :
    candidate ctx dflt mf "" 0
      = (trc.TargetFormat,
          match ctx.player with
          | some p => p.MaxBitRate
          | none => trc.DefaultBitRate) ∧
    selectTranscodingOptions ctx ds dflt mf "" 0
      = (if (candidate ctx dflt mf "" 0).2 = 0 ∧ trc.TargetFormat = "" then ("raw", 0)
        else if t.TargetFormat = mf.Suffix ∧
              (if (candidate ctx dflt mf "" 0).2 ≠ 0 then (candidate ctx dflt mf "" 0).2
                else t.DefaultBitRate) ≥ mf.BitRate
          then ("raw", 0)
          else (t.TargetFormat,
            if (candidate ctx dflt mf "" 0).2 ≠ 0 then (candidate ctx dflt mf "" 0).2
            else t.DefaultBitRate)) ∧
    lookups ctx ds dflt mf "" 0
      = (if (candidate ctx dflt mf "" 0).2 = 0 ∧ trc.TargetFormat = "" then []
        else [trc.TargetFormat]) := by
  have hc : candidate ctx dflt mf "" 0
      = (trc.TargetFormat,
          match ctx.player with
          | some p => p.MaxBitRate
          | none => trc.DefaultBitRate) := by
    unfold candidate
    simp [hprofile]
  have h1 : (candidate ctx dflt mf "" 0).1 = trc.TargetFormat := by rw [hc]
  have hshort : ¬ (("" : String) = mf.Suffix ∧ (0 : Int) = 0) := fun h => hsuffix h.1.symm
  refine ⟨hc, ?_⟩
  by_cases hcand : (candidate ctx dflt mf "" 0).2 = 0 ∧ trc.TargetFormat = ""
  · have hlog : selectTranscodingOptionsLog ctx ds dflt mf "" 0 = (("raw", 0), []) := by
      unfold selectTranscodingOptionsLog
      rw [if_neg (by decide), if_neg hshort]
      simp only []
      rw [if_pos ⟨hcand.1, h1.trans hcand.2⟩]
    unfold selectTranscodingOptions lookups
    rw [hlog, if_pos hcand, if_pos hcand]
    exact ⟨rfl, rfl⟩
  · have hlog := selectTranscodingOptionsLog_reached ctx ds dflt mf "" 0 (by decide) hshort
      (by rw [h1]; exact hcand)
    rw [h1, hfind] at hlog
    unfold selectTranscodingOptions lookups
    rw [hlog, if_neg hcand, if_neg hcand]
    exact ⟨rfl, rfl⟩

/-- Witness for C7 (amended). With caller profile `("mp3", 192)`, device max bit
rate 0 and a FLAC source, the candidate bit rate is 0, the rule default 192 is
used and the lookup is the one for `mp3`. With a caller profile of empty target
format and default bit rate 0, the result is `("raw", 0)` and no lookup is made,
although a rule is registered under the empty name. -/
theorem C7_caller_profile_witness :
    ((flacFile.Suffix ≠ "" ∧ profileWithUnsetDevice.transcoding = some mp3Rule ∧
        sampleStore.FindByFormat mp3Rule.TargetFormat = some mp3Rule) ∧
      candidate profileWithUnsetDevice "opus" flacFile "" 0 = ("mp3", 0) ∧
      selectTranscodingOptions profileWithUnsetDevice sampleStore "opus" flacFile "" 0
        = ("mp3", 192) ∧
      lookups profileWithUnsetDevice sampleStore "opus" flacFile "" 0 = ["mp3"]) ∧
    ((blankProfile.transcoding
          = some { TargetFormat := "", Command := "", DefaultBitRate := 0 } ∧
        emptyNameStore.FindByFormat "" = some mp3Rule) ∧
      selectTranscodingOptions blankProfile emptyNameStore "opus" flacFile "" 0 = ("raw", 0) ∧
      lookups blankProfile emptyNameStore "opus" flacFile "" 0 = []) :=
  have h := C7_caller_profile profileWithUnsetDevice sampleStore "opus" flacFile mp3Rule mp3Rule
    (by decide) (by decide) (by decide)
  have g := C7_caller_profile blankProfile emptyNameStore "opus" flacFile
    { TargetFormat := "", Command := "", DefaultBitRate := 0 } mp3Rule
    (by decide) (by decide) (by decide)
  ⟨⟨by decide, h.1, h.2.1.trans (by decide), h.2.2.trans (by decide)⟩,
    ⟨by decide, g.2.1.trans (by decide), g.2.2.trans (by decide)⟩⟩

/-- C8: default downsampling branch. With empty requested format, no caller
profile, a requested bit rate `b` with `0 < b < source bit rate` and a non-empty
server downsampling default for which a rule with target format `T` is found,
the result is exactly `(T, b)`: the downgrade guard does not collapse it, also
when `T` is the source format. The lookup made is the one for the downsampling
default. -/
theorem C8_default_downsampling (ctx : Context) (ds : DataStore) (dflt : String)
    (mf : MediaFile) (b : Int) (t : Transcoding)
    (hctx : ctx.transcoding = none) (hpos : 0 < b) (hlt : b < mf.BitRate)
    (hdflt : dflt ≠ "") (hfind : ds.FindByFormat dflt = some t) :
    selectTranscodingOptions ctx ds dflt mf "" b = (t.TargetFormat, b) ∧
    lookups ctx ds dflt mf "" b = [dflt] := by
  have hc : candidate ctx dflt mf "" b = (dflt, b) := by
    unfold candidate
    simp [hctx, hpos, hlt, hdflt]
  have hlog := selectTranscodingOptionsLog_reached ctx ds dflt mf "" b (by decide)
    (fun h => by omega) (by rw [hc]; exact fun h => hdflt h.2)
  rw [hc] at hlog
  simp only [hfind, resolve] at hlog
  have hb : b ≠ 0 := by omega
  have hg : downgradeGuard mf (t.TargetFormat, if b ≠ 0 then b else t.DefaultBitRate)
      = (t.TargetFormat, b) := by
    unfold downgradeGuard
    rw [if_pos hb]
    apply if_neg
    intro h
    have := h.2
    simp only [ge_iff_le] at this
    omega
  unfold selectTranscodingOptions lookups
  rw [hlog, hg]
  exact ⟨rfl, rfl⟩

/-- Witness for C8: an MP3 source at 128, requested bit rate 64, default
downsampling format `mp3`, whose rule targets the source format itself. -/
theorem C8_default_downsampling_witness :
    (anonymous.transcoding = none ∧ (0 : Int) < 64 ∧ (64 : Int) < mp3File.BitRate ∧
      "mp3" ≠ "" ∧ sampleStore.FindByFormat "mp3" = some mp3Rule ∧
      mp3Rule.TargetFormat = mp3File.Suffix) ∧
    selectTranscodingOptions anonymous sampleStore "mp3" mp3File "" 64 = ("mp3", 64) ∧
    lookups anonymous sampleStore "mp3" mp3File "" 64 = ["mp3"] :=
  ⟨by decide,
    C8_default_downsampling anonymous sampleStore "mp3" mp3File 64 mp3Rule
      (by decide) (by decide) (by decide) (by decide) (by decide)⟩

/-- C9: requested bit rate override. When the requested bit rate is positive and
the resolved format is not `raw`, the resolved bit rate is the requested bit
rate, whatever the profile default, the device max bit rate and the rule default
are. -/
theorem C9_requested_bitrate_override (ctx : Context) (ds : DataStore) (dflt : String)
    (mf : MediaFile) (reqFormat : String) (reqBitRate : Int)
    (hpos : reqBitRate > 0)
    (hnotraw : (selectTranscodingOptions ctx ds dflt mf reqFormat reqBitRate).1 ≠ "raw") :
    (selectTranscodingOptions ctx ds dflt mf reqFormat reqBitRate).2 = reqBitRate := by
  have hc2 : (candidate ctx dflt mf reqFormat reqBitRate).2 = reqBitRate := by
    unfold candidate
    simp only []
    rw [if_pos hpos]
  by_cases hraw : reqFormat = "raw"
  · exfalso
    apply hnotraw
    rw [hraw, selectTranscodingOptions_raw]
  have hshort : ¬ (reqFormat = mf.Suffix ∧ reqBitRate = 0) := fun h => by omega
  have hcand : ¬ ((candidate ctx dflt mf reqFormat reqBitRate).2 = 0 ∧
      (candidate ctx dflt mf reqFormat reqBitRate).1 = "") := by
    rw [hc2]
    exact fun h => by omega
  have hlog := selectTranscodingOptionsLog_reached ctx ds dflt mf reqFormat reqBitRate
    hraw hshort hcand
  unfold selectTranscodingOptions at hnotraw ⊢
  rw [hlog] at hnotraw ⊢
  simp only [] at hnotraw ⊢
  rw [hc2] at hnotraw ⊢
  have hb : reqBitRate ≠ 0 := by omega
  cases hf : ds.FindByFormat (candidate ctx dflt mf reqFormat reqBitRate).1 with
  | none =>
    rw [hf] at hnotraw
    exfalso
    apply hnotraw
    show (downgradeGuard mf ("raw", 0)).1 = "raw"
    unfold downgradeGuard
    split_ifs <;> rfl
  | some t =>
    rw [hf] at hnotraw
    show (downgradeGuard mf (t.TargetFormat, if reqBitRate ≠ 0 then reqBitRate
      else t.DefaultBitRate)).2 = reqBitRate
    have hn : (downgradeGuard mf (t.TargetFormat, if reqBitRate ≠ 0 then reqBitRate
      else t.DefaultBitRate)).1 ≠ "raw" := hnotraw
    rw [if_pos hb] at hn ⊢
    unfold downgradeGuard at hn ⊢
    split_ifs at hn ⊢ with hg
    · exact absurd rfl hn
    · rfl

/-- Witness for C9: caller profile `("mp3", 192)` with a device profile, FLAC
source, requested bit rate 96: the result is `("mp3", 96)`. -/
theorem C9_requested_bitrate_override_witness :
    ((96 : Int) > 0 ∧
      (selectTranscodingOptions profileWithUnsetDevice sampleStore "opus" flacFile "" 96).1
        ≠ "raw") ∧
    selectTranscodingOptions profileWithUnsetDevice sampleStore "opus" flacFile "" 96
      = ("mp3", 96) ∧
    (selectTranscodingOptions profileWithUnsetDevice sampleStore "opus" flacFile "" 96).2 = 96 :=
  ⟨by decide, by decide,
    C9_requested_bitrate_override profileWithUnsetDevice sampleStore "opus" flacFile "" 96
      (by decide) (by decide)⟩

/-! ## Decimal numerals and the shape of rendered timestamps -/

theorem append_eq_of_class (p : Char → Bool) :
    ∀ (a a2 s s2 : List Char), (∀ c ∈ a, p c = true) → (∀ c ∈ a2, p c = true) →
      (∀ c, s.head? = some c → p c = false) → (∀ c, s2.head? = some c → p c = false) →
      a ++ s = a2 ++ s2 → a = a2 ∧ s = s2 := by
  intro a
  induction a with
  | nil =>
    intro a2 s s2 _ ha2 hs _ h
    cases a2 with
    | nil => exact ⟨rfl, h⟩
    | cons c t =>
      exfalso
      have h1 : p c = true := ha2 c (List.mem_cons_self c t)
      have h2 : p c = false := hs c (by rw [List.nil_append] at h; rw [h]; rfl)
      rw [h1] at h2
      exact Bool.noConfusion h2
  | cons c t ih =>
    intro a2 s s2 ha ha2 hs hs2 h
    cases a2 with
    | nil =>
      exfalso
      have h1 : p c = true := ha c (List.mem_cons_self c t)
      have h2 : p c = false := hs2 c (by rw [List.nil_append] at h; rw [← h]; rfl)
      rw [h1] at h2
      exact Bool.noConfusion h2
    | cons c2 t2 =>
      simp only [List.cons_append, List.cons.injEq] at h
      have := ih t2 s s2 (fun x hx => ha x (List.mem_cons_of_mem c hx))
        (fun x hx => ha2 x (List.mem_cons_of_mem c2 hx)) hs hs2 h.2
      exact ⟨by rw [h.1, this.1], this.2⟩

theorem digitChar_isDigit : ∀ d, d < 10 → (Nat.digitChar d).isDigit = true := by decide

theorem toDigitsCore_isDigit : ∀ (fuel n : Nat) (ds : List Char),
    (∀ c ∈ ds, c.isDigit = true) → ∀ c ∈ Nat.toDigitsCore 10 fuel n ds, c.isDigit = true := by
  intro fuel
  induction fuel with
  | zero => intro n ds h; simpa [Nat.toDigitsCore] using h
  | succ f ih =>
    intro n ds h
    have hd : ∀ c ∈ Nat.digitChar (n % 10) :: ds, c.isDigit = true := by
      intro c hc
      rcases List.mem_cons.1 hc with rfl | hc
      · exact digitChar_isDigit _ (Nat.mod_lt _ (by decide))
      · exact h c hc
    unfold Nat.toDigitsCore
    simp only []
    split_ifs
    · exact hd
    · exact ih _ _ hd

theorem toDigits_isDigit (n : Nat) : ∀ c ∈ Nat.toDigits 10 n, c.isDigit = true :=
  toDigitsCore_isDigit _ _ _ (by simp)

theorem toDigitsCore_append : ∀ (fuel n : Nat) (ds : List Char),
    Nat.toDigitsCore 10 fuel n ds = Nat.toDigitsCore 10 fuel n [] ++ ds := by
  intro fuel
  induction fuel with
  | zero => intro n ds; simp [Nat.toDigitsCore]
  | succ f ih =>
    intro n ds
    unfold Nat.toDigitsCore
    simp only []
    split_ifs
    · simp
    · rw [ih _ (_ :: ds), ih _ [_]]
      simp

theorem decimalValue_append_singleton (l : List Char) (c : Char) :
    decimalValue (l ++ [c]) = 10 * decimalValue l + (c.toNat - 48) := by
  simp [decimalValue, List.foldl_append]

theorem digitChar_value : ∀ d, d < 10 → (Nat.digitChar d).toNat - 48 = d := by decide

theorem decimalValue_toDigitsCore : ∀ (fuel n : Nat), n < fuel →
    decimalValue (Nat.toDigitsCore 10 fuel n []) = n := by
  intro fuel
  induction fuel with
  | zero => intro n h; omega
  | succ f ih =>
    intro n h
    unfold Nat.toDigitsCore
    simp only []
    split_ifs with h0
    · have : n < 10 := by omega
      have h2 : n % 10 = n := Nat.mod_eq_of_lt this
      rw [h2]
      simp [decimalValue, digitChar_value n this]
    · rw [toDigitsCore_append, decimalValue_append_singleton, ih _ (by omega),
        digitChar_value _ (Nat.mod_lt _ (by decide))]
      omega

theorem decimalValue_toDigits (n : Nat) : decimalValue (Nat.toDigits 10 n) = n :=
  decimalValue_toDigitsCore _ _ (Nat.lt_succ_self n)

theorem toDigits_injective {m n : Nat} (h : Nat.toDigits 10 m = Nat.toDigits 10 n) : m = n := by
  rw [← decimalValue_toDigits m, ← decimalValue_toDigits n, h]

theorem isDigit_ne {c d : Char} (hd : d.isDigit = false) (h : c.isDigit = true) : c ≠ d := by
  intro he
  rw [he, hd] at h
  exact Bool.noConfusion h

theorem appendInt_data (b : String) (x : Int) (width : Nat) :
    (appendInt b x width).data = b.data ++ intChars x width := by
  unfold appendInt intChars
  by_cases hx : x < 0
  · simp only [if_pos hx, String.data_append]
    simp
  · simp only [if_neg hx, String.data_append]
    simp

theorem intChars_digits_of_nonneg {x : Int} (hx : 0 ≤ x) (width : Nat) :
    ∀ c ∈ intChars x width, c.isDigit = true := by
  intro c hc
  unfold intChars at hc
  rw [if_neg (by omega), List.nil_append] at hc
  rcases List.mem_append.1 hc with h | h
  · rw [List.eq_of_mem_replicate h]
    decide
  · exact toDigits_isDigit _ c h

theorem intChars_class (x : Int) (width : Nat) :
    ∀ c ∈ intChars x width, c.isDigit = true ∨ c = '-' := by
  intro c hc
  unfold intChars at hc
  rcases List.mem_append.1 hc with h | h
  · right
    split_ifs at h
    · simpa using h
    · simp at h
  · left
    rcases List.mem_append.1 h with h | h
    · rw [List.eq_of_mem_replicate h]
      decide
    · exact toDigits_isDigit _ c h

theorem mem_trimTrailingZeros {l : List Char} {c : Char} (h : c ∈ trimTrailingZeros l) :
    c ∈ l := by
  unfold trimTrailingZeros at h
  rw [List.mem_reverse] at h
  exact List.mem_reverse.1 ((List.dropWhile_sublist _).subset h)

theorem appendNano_data (b : String) (nanosec : Nat) :
    (appendNano b nanosec).data = b.data ++ nanoChars nanosec := by
  unfold appendNano nanoChars
  by_cases h0 : nanosec = 0
  · simp [h0]
  · simp only [if_neg h0, String.data_append, appendInt_data]
    simp

theorem nanoChars_shape (nanosec : Nat) :
    nanoChars nanosec = [] ∨
      ∃ ds, nanoChars nanosec = '.' :: ds ∧ ∀ c ∈ ds, c.isDigit = true := by
  unfold nanoChars
  by_cases h0 : nanosec = 0
  · exact Or.inl (if_pos h0)
  · refine Or.inr ⟨_, if_neg h0, ?_⟩
    intro c hc
    exact intChars_digits_of_nonneg (Int.natCast_nonneg _) 9 c (mem_trimTrailingZeros hc)

theorem zoneChars_head (offset : Int) :
    ∃ z rest, zoneChars offset = z :: rest ∧ (z = 'Z' ∨ z = '+' ∨ z = '-') := by
  unfold zoneChars
  by_cases h0 : offset = 0
  · exact ⟨'Z', [], if_pos h0, Or.inl rfl⟩
  · rw [if_neg h0]
    by_cases hz : Int.tdiv offset 60 < 0
    · exact ⟨'-', _, by rw [if_pos hz], Or.inr (Or.inr rfl)⟩
    · exact ⟨'+', _, by rw [if_neg hz], Or.inr (Or.inl rfl)⟩

theorem zoneChars_no_dot (offset : Int) : ∀ c ∈ zoneChars offset, c ≠ '.' := by
  have hint : ∀ (x : Int) (w : Nat), ∀ c ∈ intChars x w, c ≠ '.' := by
    intro x w c hc
    rcases intChars_class x w c hc with h | h
    · exact isDigit_ne (by decide) h
    · rw [h]
      decide
  intro c hc
  unfold zoneChars at hc
  by_cases h0 : offset = 0
  · rw [if_pos h0] at hc
    rw [List.mem_singleton.1 hc]
    decide
  · rw [if_neg h0] at hc
    rcases List.mem_cons.1 hc with h | h
    · rw [h]
      split_ifs <;> decide
    · rcases List.mem_append.1 h with h | h
      · exact hint _ _ c h
      · rcases List.mem_cons.1 h with h | h
        · rw [h]
          decide
        · exact hint _ _ c h

theorem formatRFC3339Nano_data (t : Time) :
    (formatRFC3339Nano t).data
      = (intChars t.year 4 ++ '-' :: (intChars t.month 2 ++ '-' :: intChars t.day 2))
        ++ 'T' :: ((intChars t.hour 2 ++ ':' :: (intChars t.minute 2 ++ ':' ::
            intChars t.second 2))
          ++ (nanoChars t.nanosecond ++ zoneChars t.offset)) := by
  unfold formatRFC3339Nano zoneChars
  by_cases h0 : t.offset = 0
  · simp only [if_pos h0, String.data_append, appendInt_data, appendNano_data]
    simp
  · by_cases hz : Int.tdiv t.offset 60 < 0
    · simp only [if_neg h0, if_pos hz, String.data_append, appendInt_data, appendNano_data]
      simp
    · simp only [if_neg h0, if_neg hz, String.data_append, appendInt_data, appendNano_data]
      simp

theorem formatRFC3339Nano_isStamp (t : Time) : IsStamp (formatRFC3339Nano t).data := by
  refine ⟨_, _, _, _, formatRFC3339Nano_data t, ?_, ?_, nanoChars_shape _, zoneChars_head _,
    zoneChars_no_dot _⟩
  · intro c hc
    rcases List.mem_append.1 hc with h | h
    · exact intChars_class _ _ c h
    · rcases List.mem_cons.1 h with h | h
      · exact Or.inr h
      · rcases List.mem_append.1 h with h | h
        · exact intChars_class _ _ c h
        · rcases List.mem_cons.1 h with h | h
          · exact Or.inr h
          · exact intChars_class _ _ c h
  · intro c hc
    rcases List.mem_append.1 hc with h | h
    · exact Or.inl (intChars_digits_of_nonneg (Int.natCast_nonneg _) _ c h)
    · rcases List.mem_cons.1 h with h | h
      · exact Or.inr h
      · rcases List.mem_append.1 h with h | h
        · exact Or.inl (intChars_digits_of_nonneg (Int.natCast_nonneg _) _ c h)
        · rcases List.mem_cons.1 h with h | h
          · exact Or.inr h
          · exact Or.inl (intChars_digits_of_nonneg (Int.natCast_nonneg _) _ c h)

/-- A timestamp followed by a dot can be read off the front of a string in only
one way. -/
theorem stamp_tail_unique {a b r r2 : List Char} (ha : IsStamp a) (hb : IsStamp b)
    (h : a ++ '.' :: r = b ++ '.' :: r2) : a = b ∧ r = r2 := by
  obtain ⟨d, k, f, z, rfl, hd, hk, hf, ⟨zc, zr, hz, hzc⟩, hzd⟩ := ha
  obtain ⟨d2, k2, f2, z2, rfl, hd2, hk2, hf2, ⟨zc2, zr2, hz2, hzc2⟩, hzd2⟩ := hb
  -- the date ends at the first `T`
  have hdate : ∀ l : List Char, (∀ c ∈ l, c.isDigit = true ∨ c = '-') →
      ∀ c ∈ l, (fun c : Char => c.isDigit || c == '-') c = true := by
    intro l hl c hc
    rcases hl c hc with h | h <;> simp [h]
  have hclock : ∀ l : List Char, (∀ c ∈ l, c.isDigit = true ∨ c = ':') →
      ∀ c ∈ l, (fun c : Char => c.isDigit || c == ':') c = true := by
    intro l hl c hc
    rcases hl c hc with h | h <;> simp [h]
  have hzhead : ∀ c : Char, (c = 'Z' ∨ c = '+' ∨ c = '-') →
      c.isDigit = false ∧ c ≠ ':' ∧ c ≠ '.' := by
    intro c hc
    rcases hc with h | h | h <;> subst h <;> decide
  simp only [List.append_assoc, List.cons_append] at h
  have s1 := append_eq_of_class (fun c : Char => c.isDigit || c == '-') d d2 _ _
    (hdate d hd) (hdate d2 hd2)
    (by intro c hc; simp only [List.head?_cons, Option.some.injEq] at hc; subst hc; decide)
    (by intro c hc; simp only [List.head?_cons, Option.some.injEq] at hc; subst hc; decide) h
  obtain ⟨e1, h1⟩ := s1
  subst e1
  simp only [List.cons.injEq, true_and] at h1
  -- the clock reading ends at the first character that is neither digit nor colon
  have hfz : ∀ (f z : List Char) (zc : Char) (zr r : List Char),
      (f = [] ∨ ∃ ds, f = '.' :: ds ∧ ∀ c ∈ ds, c.isDigit = true) → z = zc :: zr →
      (zc = 'Z' ∨ zc = '+' ∨ zc = '-') →
      ∀ c, (f ++ (z ++ '.' :: r)).head? = some c →
        (fun c : Char => c.isDigit || c == ':') c = false := by
    intro f z zc zr r hf hz hzc c hc
    rcases hf with rfl | ⟨ds, rfl, _⟩
    · subst hz
      simp only [List.nil_append, List.cons_append, List.head?_cons, Option.some.injEq] at hc
      subst hc
      have := hzhead zc hzc
      simp [this.1, this.2.1]
    · simp only [List.cons_append, List.head?_cons, Option.some.injEq] at hc
      subst hc
      decide
  have s2 := append_eq_of_class (fun c : Char => c.isDigit || c == ':') k k2 _ _
    (hclock k hk) (hclock k2 hk2) (hfz f z zc zr r hf hz hzc) (hfz f2 z2 zc2 zr2 r2 hf2 hz2 hzc2) h1
  obtain ⟨e2, h2⟩ := s2
  subst e2
  -- the fraction, when present, ends at the first non-digit
  have hzstart : ∀ (z : List Char) (zc : Char) (zr r : List Char), z = zc :: zr →
      (zc = 'Z' ∨ zc = '+' ∨ zc = '-') →
      ∀ c, (z ++ '.' :: r).head? = some c → (fun c : Char => c.isDigit) c = false := by
    intro z zc zr r hz hzc c hc
    subst hz
    simp only [List.cons_append, List.head?_cons, Option.some.injEq] at hc
    subst hc
    exact (hzhead zc hzc).1
  have s3 : f = f2 ∧ z ++ '.' :: r = z2 ++ '.' :: r2 := by
    rcases hf with rfl | ⟨ds, rfl, hds⟩ <;> rcases hf2 with rfl | ⟨ds2, rfl, hds2⟩
    · exact ⟨rfl, by simpa using h2⟩
    · exfalso
      subst hz
      simp only [List.nil_append, List.cons_append, List.cons.injEq] at h2
      exact (hzhead zc hzc).2.2 h2.1
    · exfalso
      subst hz2
      simp only [List.nil_append, List.cons_append, List.cons.injEq] at h2
      exact (hzhead zc2 hzc2).2.2 h2.1.symm
    · simp only [List.cons_append, List.cons.injEq, true_and] at h2
      have := append_eq_of_class (fun c : Char => c.isDigit) ds ds2 _ _ hds hds2
        (hzstart z zc zr r hz hzc) (hzstart z2 zc2 zr2 r2 hz2 hzc2) h2
      exact ⟨by rw [this.1], this.2⟩
  obtain ⟨e3, h3⟩ := s3
  subst e3
  -- the zone ends at the first dot
  have hnd : ∀ l : List Char, (∀ c ∈ l, c ≠ '.') →
      ∀ c ∈ l, (fun c : Char => c != '.') c = true := by
    intro l hl c hc
    simpa using hl c hc
  have s4 := append_eq_of_class (fun c : Char => c != '.') z z2 _ _ (hnd z hzd) (hnd z2 hzd2)
    (by intro c hc; simp only [List.head?_cons, Option.some.injEq] at hc; subst hc; decide)
    (by intro c hc; simp only [List.head?_cons, Option.some.injEq] at hc; subst hc; decide) h3
  obtain ⟨e4, h4⟩ := s4
  subst e4
  simp only [List.cons.injEq, true_and] at h4
  exact ⟨rfl, h4⟩

theorem formatInt_data (x : Int) :
    (formatInt x).data = (if x < 0 then ['-'] else []) ++ Nat.toDigits 10 x.natAbs := by
  unfold formatInt
  by_cases hx : x < 0
  · rw [if_pos hx, if_pos hx, String.data_append]
  · rw [if_neg hx, if_neg hx]
    rfl

theorem formatInt_no_dot (x : Int) : ∀ c ∈ (formatInt x).data, c ≠ '.' := by
  intro c hc
  rw [formatInt_data] at hc
  rcases List.mem_append.1 hc with h | h
  · split_ifs at h
    · rw [List.mem_singleton.1 h]
      decide
    · simp at h
  · exact isDigit_ne (by decide) (toDigits_isDigit _ c h)

/-- The verb `%d` renders different integers differently. -/
theorem formatInt_injective {x y : Int} (h : formatInt x = formatInt y) : x = y := by
  have hd : (formatInt x).data = (formatInt y).data := by rw [h]
  rw [formatInt_data, formatInt_data] at hd
  have hhead : ∀ n : Nat, ∀ l : List Char, '-' :: l ≠ Nat.toDigits 10 n := by
    intro n l he
    have := toDigits_isDigit n '-' (by rw [← he]; exact List.mem_cons_self _ _)
    revert this
    decide
  by_cases hx : x < 0 <;> by_cases hy : y < 0
  · rw [if_pos hx, if_pos hy] at hd
    simp only [List.singleton_append, List.cons.injEq, true_and] at hd
    have := toDigits_injective hd
    omega
  · rw [if_pos hx, if_neg hy] at hd
    exact absurd hd (hhead _ _)
  · rw [if_neg hx, if_pos hy] at hd
    exact absurd hd.symm (hhead _ _)
  · rw [if_neg hx, if_neg hy] at hd
    simp only [List.nil_append] at hd
    have := toDigits_injective hd
    omega

theorem Key_data (j : streamJob) :
    j.Key.data = j.mf.ID.data ++ '.' :: ((formatRFC3339Nano j.mf.UpdatedAt).data ++ '.' ::
      ((formatInt j.bitRate).data ++ '.' :: j.format.data)) := by
  unfold streamJob.Key
  simp only [String.data_append]
  simp

/-- After the media file id, the rest of a key determines the rendered timestamp,
the bit rate and the format. -/
theorem key_tail_injective {t1 t2 : Time} {b1 b2 : Int} {f1 f2 : String}
    (h : (formatRFC3339Nano t1).data ++ '.' :: ((formatInt b1).data ++ '.' :: f1.data)
      = (formatRFC3339Nano t2).data ++ '.' :: ((formatInt b2).data ++ '.' :: f2.data)) :
    formatRFC3339Nano t1 = formatRFC3339Nano t2 ∧ b1 = b2 ∧ f1 = f2 := by
  obtain ⟨hs, h1⟩ := stamp_tail_unique (formatRFC3339Nano_isStamp t1)
    (formatRFC3339Nano_isStamp t2) h
  have hnd : ∀ x : Int, ∀ c ∈ (formatInt x).data, (fun c : Char => c != '.') c = true := by
    intro x c hc
    simpa using formatInt_no_dot x c hc
  obtain ⟨hb, h2⟩ := append_eq_of_class (fun c : Char => c != '.') _ _ _ _ (hnd b1) (hnd b2)
    (by intro c hc; simp only [List.head?_cons, Option.some.injEq] at hc; subst hc; decide)
    (by intro c hc; simp only [List.head?_cons, Option.some.injEq] at hc; subst hc; decide) h1
  simp only [List.cons.injEq, true_and] at h2
  exact ⟨String.ext hs, formatInt_injective (String.ext hb), String.ext h2⟩

/-! ## Stream job keys: `streamJob.Key` -/

/-- C10 as stated fails: two jobs with different media file ids (`a.2023-07-09T13:41:22Z.5`
and `a`) and different target formats, the same timestamp and the same bit rate,
have the same key. -/
theorem C10_counterexample :
    dottedIdJob.Key = dottedFormatJob.Key ∧
    dottedIdJob.Key = "a.2023-07-09T13:41:22Z.5.2023-07-09T13:41:22Z.5.mp3" ∧
    dottedIdJob.mf.ID ≠ dottedFormatJob.mf.ID ∧
    dottedIdJob.format ≠ dottedFormatJob.format ∧
    ¬ (dottedIdJob.Key = dottedFormatJob.Key ↔
        (dottedIdJob.mf.ID = dottedFormatJob.mf.ID ∧
          formatRFC3339Nano dottedIdJob.mf.UpdatedAt
            = formatRFC3339Nano dottedFormatJob.mf.UpdatedAt ∧
          dottedIdJob.bitRate = dottedFormatJob.bitRate ∧
          dottedIdJob.format = dottedFormatJob.format)) := by
  decide

/-- C10 (amended): for two stream jobs whose media file ids contain no dot, the
keys are equal if and only if the jobs have the same media file id, the same
last-update timestamp as rendered by `RFC3339Nano`, the same target bit rate and
the same target format, for all format names. -/
theorem C10_key_injective (j1 j2 : streamJob)
    (hid1 : '.' ∉ j1.mf.ID.toList) (hid2 : '.' ∉ j2.mf.ID.toList) :
    j1.Key = j2.Key ↔
      (j1.mf.ID = j2.mf.ID ∧
        formatRFC3339Nano j1.mf.UpdatedAt = formatRFC3339Nano j2.mf.UpdatedAt ∧
        j1.bitRate = j2.bitRate ∧ j1.format = j2.format) := by
  constructor
  · intro h
    have hd : j1.Key.data = j2.Key.data := by rw [h]
    rw [Key_data, Key_data] at hd
    have hnd : ∀ s : String, '.' ∉ s.toList →
        ∀ c ∈ s.data, (fun c : Char => c != '.') c = true := by
      intro s hs c hc
      have : c ≠ '.' := fun he => hs (he ▸ hc)
      simpa using this
    obtain ⟨hid, htail⟩ := append_eq_of_class (fun c : Char => c != '.') _ _ _ _
      (hnd _ hid1) (hnd _ hid2)
      (by intro c hc; simp only [List.head?_cons, Option.some.injEq] at hc; subst hc; decide)
      (by intro c hc; simp only [List.head?_cons, Option.some.injEq] at hc; subst hc; decide) hd
    simp only [List.cons.injEq, true_and] at htail
    exact ⟨String.ext hid, key_tail_injective htail⟩
  · rintro ⟨h1, h2, h3, h4⟩
    unfold streamJob.Key
    rw [h1, h2, h3, h4]

/-- Witness for C10 (amended): the FLAC file as MP3 at 192 and as Opus at 128;
the id `f1` has no dot and the two keys differ. -/
theorem C10_key_injective_witness :
    ('.' ∉ flacToMp3Job.mf.ID.toList ∧ '.' ∉ flacToOpusJob.mf.ID.toList) ∧
    (flacToMp3Job.Key = flacToOpusJob.Key ↔
      (flacToMp3Job.mf.ID = flacToOpusJob.mf.ID ∧
        formatRFC3339Nano flacToMp3Job.mf.UpdatedAt
          = formatRFC3339Nano flacToOpusJob.mf.UpdatedAt ∧
        flacToMp3Job.bitRate = flacToOpusJob.bitRate ∧
        flacToMp3Job.format = flacToOpusJob.format)) :=
  ⟨by decide, C10_key_injective flacToMp3Job flacToOpusJob (by decide) (by decide)⟩

/-- C11: key sensitivity for one media file. For two stream jobs with the same
media file id the keys differ whenever (a) bit rate and format are the same but
the update timestamps render to different `RFC3339Nano` strings, or (b) the
update timestamp is the same but the pairs (bit rate, format) differ. This holds
for all format names, also those with dots or digits: the decimal bit rate field
contains no dot. -/
theorem C11_key_sensitivity (j1 j2 : streamJob) (hid : j1.mf.ID = j2.mf.ID)
    (hdiff :
      (j1.bitRate = j2.bitRate ∧ j1.format = j2.format ∧
        formatRFC3339Nano j1.mf.UpdatedAt ≠ formatRFC3339Nano j2.mf.UpdatedAt) ∨
      (j1.mf.UpdatedAt = j2.mf.UpdatedAt ∧
        (j1.bitRate, j1.format) ≠ (j2.bitRate, j2.format))) :
    j1.Key ≠ j2.Key ∧ '.' ∉ (formatInt j1.bitRate).toList ∧
      '.' ∉ (formatInt j2.bitRate).toList := by
  refine ⟨?_, fun h => formatInt_no_dot _ _ h rfl, fun h => formatInt_no_dot _ _ h rfl⟩
  intro h
  have hd : j1.Key.data = j2.Key.data := by rw [h]
  rw [Key_data, Key_data, hid] at hd
  have htail := List.append_cancel_left hd
  simp only [List.cons.injEq, true_and] at htail
  obtain ⟨hts, hb, hf⟩ := key_tail_injective htail
  rcases hdiff with ⟨_, _, hne⟩ | ⟨_, hne⟩
  · exact hne hts
  · exact hne (by rw [hb, hf])

/-- Witness for C11: the FLAC file with bit rate 1 and format `2.mp3` against the
same file with bit rate 12 and format `mp3`; the keys end in `.1.2.mp3` and
`.12.mp3`. -/
theorem C11_key_sensitivity_witness :
    (digitDotFormatJob.mf.ID = flacToMp3At12Job.mf.ID ∧
      digitDotFormatJob.mf.UpdatedAt = flacToMp3At12Job.mf.UpdatedAt ∧
      (digitDotFormatJob.bitRate, digitDotFormatJob.format)
        ≠ (flacToMp3At12Job.bitRate, flacToMp3At12Job.format)) ∧
    digitDotFormatJob.Key = "f1.2023-07-09T13:41:22Z.1.2.mp3" ∧
    flacToMp3At12Job.Key = "f1.2023-07-09T13:41:22Z.12.mp3" ∧
    digitDotFormatJob.Key ≠ flacToMp3At12Job.Key :=
  ⟨by decide, by decide, by decide,
    (C11_key_sensitivity digitDotFormatJob flacToMp3At12Job (by decide)
      (Or.inr (by decide))).1⟩


/-! ## Estimated content length: `Stream.EstimatedContentLength` -/

theorem bitLengthAux_le : ∀ (fuel n k : Nat), n < 2 ^ k → bitLengthAux fuel n ≤ k := by
  intro fuel
  induction fuel with
  | zero => intro n k _; exact Nat.zero_le k
  | succ f ih =>
    intro n k h
    unfold bitLengthAux
    by_cases h0 : n = 0
    · rw [if_pos h0]
      exact Nat.zero_le k
    · rw [if_neg h0]
      cases k with
      | zero => simp at h; exact absurd h h0
      | succ j =>
        have : n / 2 < 2 ^ j := by
          rw [Nat.pow_succ] at h
          omega
        have := ih (n / 2) j this
        omega

/-- The integer part computed on binary fractions is the truncation of the
rational number towards zero. -/
theorem truncDyadic_eq_truncRat (m e : Int) :
    truncDyadic m e = truncRat ((m : ℚ) * (2 : ℚ) ^ e) := by
  unfold truncDyadic truncRat
  by_cases he : 0 ≤ e
  · rw [if_pos he]
    obtain ⟨k, rfl⟩ := Int.eq_ofNat_of_zero_le he
    have hq : (m : ℚ) * (2 : ℚ) ^ (k : Int) = ((m * ((2 ^ k : Nat) : Int) : Int) : ℚ) := by
      push_cast
      rw [zpow_natCast]
    rw [hq]
    simp only [Int.toNat_ofNat]
    split_ifs
    · exact (Int.floor_intCast _).symm
    · exact (Int.ceil_intCast _).symm
  · rw [if_neg he]
    have hk : e = -((-e).toNat : Int) := by omega
    generalize (-e).toNat = k at hk
    subst hk
    have hq : (m : ℚ) * (2 : ℚ) ^ (-(k : Int)) = (m : ℚ) / ((2 ^ k : Nat) : ℚ) := by
      rw [zpow_neg, zpow_natCast, div_eq_mul_inv]
      push_cast
      rfl
    rw [hq]
    have hpos : (0 : ℚ) < ((2 ^ k : Nat) : ℚ) := by positivity
    by_cases hm : 0 ≤ m
    · have hq0 : (0 : ℚ) ≤ (m : ℚ) / ((2 ^ k : Nat) : ℚ) :=
        div_nonneg (by exact_mod_cast hm) hpos.le
      rw [if_pos hq0, Rat.floor_intCast_div_natCast]
      exact Int.tdiv_eq_ediv hm (Int.natCast_nonneg _)
    · have hm2 : m < 0 := by omega
      have hq0 : ¬ (0 : ℚ) ≤ (m : ℚ) / ((2 ^ k : Nat) : ℚ) := by
        rw [not_le]
        exact div_neg_of_neg_of_pos (by exact_mod_cast hm2) hpos
      rw [if_neg hq0]
      have hneg : (m : ℚ) / ((2 ^ k : Nat) : ℚ) = -(((-m : Int) : ℚ) / ((2 ^ k : Nat) : ℚ)) := by
        push_cast
        ring
      rw [hneg, Int.ceil_neg, Rat.floor_intCast_div_natCast]
      have h1 : Int.tdiv m ((2 ^ k : Nat) : Int) = -(Int.tdiv (-m) ((2 ^ k : Nat) : Int)) := by
        rw [Int.neg_tdiv, neg_neg]
      rw [h1, Int.tdiv_eq_ediv (by omega) (Int.natCast_nonneg _)]

/-- C12 as stated fails. (1) The code multiplies by 1024 after dividing by 8: for
a duration of 8 seconds and bit rate 128 it returns 131072, while
`duration * bitrate / 8` is 128. (2) The arithmetic is `float32` arithmetic: for
duration `2 ^ 24 - 1` and bit rate 3 the product is rounded and the code returns
6442450432, while `duration * bitrate / 8 * 1024` truncated is 6442450560. -/
theorem C12_counterexample :
    (eightSecondStream.mf.Duration.toRat = 8 ∧ eightSecondStream.bitRate = 128 ∧
      eightSecondStream.EstimatedContentLength = some 131072 ∧
      truncRat (eightSecondStream.mf.Duration.toRat * (eightSecondStream.bitRate : ℚ) / 8)
        = 128) ∧
    (inexactProductStream.mf.Duration.toRat = 16777215 ∧ inexactProductStream.bitRate = 3 ∧
      inexactProductStream.EstimatedContentLength = some 6442450432 ∧
      truncRat (inexactProductStream.mf.Duration.toRat * (inexactProductStream.bitRate : ℚ)
        / 8 * 1024) = 6442450560) := by
  have h1 : eightSecondStream.mf.Duration.toRat = 8 := by
    show ((1 : Int) : ℚ) * (2 : ℚ) ^ (3 : Int) = 8
    norm_num
  have h2 : inexactProductStream.mf.Duration.toRat = 16777215 := by
    show ((16777215 : Int) : ℚ) * (2 : ℚ) ^ (0 : Int) = 16777215
    norm_num
  refine ⟨⟨h1, rfl, by decide, ?_⟩, ⟨h2, rfl, by decide, ?_⟩⟩
  · rw [h1]
    show truncRat (8 * ((128 : Int) : ℚ) / 8) = 128
    have h : (8 * ((128 : Int) : ℚ) / 8) = ((128 : Int) : ℚ) := by norm_num
    rw [h]
    unfold truncRat
    rw [if_pos (by norm_num), Int.floor_intCast]
  · rw [h2]
    show truncRat (16777215 * ((3 : Int) : ℚ) / 8 * 1024) = 6442450560
    have h : (16777215 * ((3 : Int) : ℚ) / 8 * 1024) = ((6442450560 : Int) : ℚ) := by norm_num
    rw [h]
    unfold truncRat
    rw [if_pos (by norm_num), Int.floor_intCast]

theorem lt_two_pow_bitLengthAux : ∀ (fuel n : Nat), n ≤ fuel → n < 2 ^ bitLengthAux fuel n := by
  intro fuel
  induction fuel with
  | zero =>
    intro n h
    have : n = 0 := by omega
    subst this
    decide
  | succ f ih =>
    intro n h
    unfold bitLengthAux
    by_cases h0 : n = 0
    · rw [if_pos h0, h0]
      decide
    · rw [if_neg h0]
      have h1 := ih (n / 2) (by omega)
      rw [Nat.pow_succ]
      omega

/-- The function `bitLength` is the binary size of Mathlib. -/
theorem bitLength_eq_size (n : Nat) : bitLength n = Nat.size n := by
  apply le_antisymm
  · exact bitLengthAux_le n n _ (Nat.lt_size_self n)
  · exact Nat.size_le.2 (lt_two_pow_bitLengthAux n n (le_refl n))

theorem bitLength_mul_two_pow {n : Nat} (hn : n ≠ 0) (j : Nat) :
    bitLength (n * 2 ^ j) = bitLength n + j := by
  rw [bitLength_eq_size, bitLength_eq_size, ← Nat.shiftLeft_eq, Nat.size_shiftLeft hn]

theorem bitLength_le_of_lt {n k : Nat} (h : n < 2 ^ k) : bitLength n ≤ k :=
  bitLengthAux_le n n k h

/-- Two binary fractions that denote the same number differ by a power of two
in their numerators. -/
theorem eq_mul_two_pow_of_zpow_eq {m M e E : Int}
    (hq : (m : ℚ) * (2 : ℚ) ^ e = (M : ℚ) * (2 : ℚ) ^ E) (h : E ≤ e) :
    M = m * ((2 ^ (e - E).toNat : Nat) : Int) := by
  have he : e = E + ((e - E).toNat : Int) := by omega
  have h2 : (2 : ℚ) ^ E ≠ 0 := zpow_ne_zero _ (by norm_num)
  have hq2 : (m : ℚ) * (2 : ℚ) ^ (E + ((e - E).toNat : Int)) = (M : ℚ) * (2 : ℚ) ^ E := by
    rw [← he]
    exact hq
  rw [zpow_add₀ (by norm_num : (2 : ℚ) ≠ 0), zpow_natCast] at hq2
  have h3 : (M : ℚ) = (m : ℚ) * (2 : ℚ) ^ (e - E).toNat := by
    apply mul_right_cancel₀ h2
    rw [← hq2]
    ring
  exact_mod_cast h3


/-- Rounding leaves a number alone that has at most 24 significant bits, no bit
below `2 ^ (-149)` and a magnitude below `2 ^ 128`. -/
theorem Float32.round_eq_self {m e : Int} (hL : bitLength m.natAbs ≤ 24) (he : -149 ≤ e)
    (ho : m = 0 ∨ (bitLength m.natAbs : Int) + e ≤ 128) :
    Float32.round m e = Float32.finite m e := by
  unfold Float32.round
  simp only []
  have hk : max ((bitLength m.natAbs : Int) - 24) (-149 - e) ≤ 0 := by
    apply max_le <;> omega
  rw [if_pos hk]
  apply if_neg
  rintro ⟨h1, h2⟩
  rcases ho with h | h
  · exact h1 h
  · omega

/-- Rounding drops `k` low bits that are all zero without changing the number. -/
theorem Float32.round_eq_shift {m e : Int} {q k : Nat} (hk0 : 0 < k)
    (hk : max ((bitLength m.natAbs : Int) - 24) (-149 - e) = (k : Int))
    (hn : m.natAbs = q * 2 ^ k) (ho : (bitLength q : Int) + (e + (k : Int)) ≤ 128) :
    Float32.round m e
      = Float32.finite (if m < 0 then -(q : Int) else (q : Int)) (e + (k : Int)) := by
  unfold Float32.round
  simp only []
  rw [hk, if_neg (by omega), Int.toNat_ofNat, hn, Nat.mul_div_cancel _ (Nat.two_pow_pos k),
    Nat.mul_mod_left]
  have hhalf : 0 < 2 ^ (k - 1) := Nat.two_pow_pos _
  have hc : ¬ (0 > 2 ^ (k - 1) ∨ (0 = 2 ^ (k - 1) ∧ q % 2 = 1)) := by omega
  simp only [if_neg hc]
  rw [if_neg (by omega)]

/-- Rounding is exact on the `float32` values: when `m * 2 ^ e` is a `float32`
value, `Float32.round m e` is finite and denotes that number. -/
theorem Float32.round_denotes (m e : Int)
    (h : Float32.Representable ((m : ℚ) * (2 : ℚ) ^ e)) :
    Float32.Denotes (Float32.round m e) ((m : ℚ) * (2 : ℚ) ^ e) := by
  obtain ⟨M, E, hM, hE1, hE2, hq⟩ := h
  by_cases hm0 : m = 0
  · subst hm0
    have hb0 : bitLength (0 : Int).natAbs = 0 := rfl
    by_cases he : -149 ≤ e
    · rw [Float32.round_eq_self (by rw [hb0]; omega) he (Or.inl rfl)]
      exact ⟨0, e, rfl, rfl⟩
    · have hk : max ((bitLength (0 : Int).natAbs : Int) - 24) (-149 - e)
          = (((-149 - e).toNat : Nat) : Int) := by
        rw [hb0, max_eq_right (by omega)]
        omega
      rw [Float32.round_eq_shift (q := 0) (by omega) hk (by simp)
        (by show ((bitLength 0 : Nat) : Int) + _ ≤ 128; rw [show bitLength 0 = 0 from rfl]; omega)]
      exact ⟨_, _, rfl, by simp⟩
  · have hn0 : m.natAbs ≠ 0 := fun h => hm0 (Int.natAbs_eq_zero.1 h)
    rcases le_total E e with hEe | heE
    · -- the given numerator carries more low zero bits than `M`
      have hrel := eq_mul_two_pow_of_zpow_eq hq hEe
      have hN : M.natAbs = m.natAbs * 2 ^ (e - E).toNat := by
        rw [hrel, Int.natAbs_mul, Int.natAbs_ofNat]
      have hsz : bitLength m.natAbs + (e - E).toNat ≤ 24 := by
        rw [← bitLength_mul_two_pow hn0, ← hN]
        exact bitLength_le_of_lt hM
      rw [Float32.round_eq_self (by omega) (by omega) (Or.inr (by omega))]
      exact ⟨m, e, rfl, rfl⟩
    · have hrel := eq_mul_two_pow_of_zpow_eq hq.symm heE
      have hM0 : M.natAbs ≠ 0 := by
        intro h0
        rw [Int.natAbs_eq_zero.1 h0, zero_mul] at hrel
        exact hm0 hrel
      have hN : m.natAbs = M.natAbs * 2 ^ (E - e).toNat := by
        rw [hrel, Int.natAbs_mul, Int.natAbs_ofNat]
      have hszM : bitLength M.natAbs ≤ 24 := bitLength_le_of_lt hM
      have hsz : bitLength m.natAbs = bitLength M.natAbs + (E - e).toNat := by
        rw [hN, bitLength_mul_two_pow hM0]
      by_cases hk : max ((bitLength m.natAbs : Int) - 24) (-149 - e) ≤ 0
      · have h1 := (max_le_iff.1 hk).1
        have h2 := (max_le_iff.1 hk).2
        rw [Float32.round_eq_self (by omega) (by omega) (Or.inr (by omega))]
        exact ⟨m, e, rfl, rfl⟩
      · have hkj : max ((bitLength m.natAbs : Int) - 24) (-149 - e) ≤ ((E - e).toNat : Int) := by
          apply max_le <;> omega
        obtain ⟨k, hkk⟩ : ∃ k : Nat,
            max ((bitLength m.natAbs : Int) - 24) (-149 - e) = (k : Int) :=
          ⟨_, (Int.toNat_of_nonneg (by omega)).symm⟩
        have hk0 : 0 < k := by omega
        have hkle : k ≤ (E - e).toNat := by omega
        have hsplit : (E - e).toNat = ((E - e).toNat - k) + k := by omega
        have hn : m.natAbs = (M.natAbs * 2 ^ ((E - e).toNat - k)) * 2 ^ k := by
          rw [hN, Nat.mul_assoc, ← Nat.pow_add, ← hsplit]
        have hbq : bitLength (M.natAbs * 2 ^ ((E - e).toNat - k))
            = bitLength M.natAbs + ((E - e).toNat - k) := bitLength_mul_two_pow hM0 _
        rw [Float32.round_eq_shift hk0 hkk hn (by rw [hbq]; omega)]
        refine ⟨_, _, rfl, ?_⟩
        rw [zpow_add₀ (by norm_num : (2 : ℚ) ≠ 0), zpow_natCast]
        have hmq : (if m < 0 then -((M.natAbs * 2 ^ ((E - e).toNat - k) : Nat) : Int)
            else ((M.natAbs * 2 ^ ((E - e).toNat - k) : Nat) : Int)) * ((2 ^ k : Nat) : Int) = m := by
          by_cases hneg : m < 0
          · rw [if_pos hneg, neg_mul, ← Nat.cast_mul, ← hn, Int.ofNat_natAbs_of_nonpos hneg.le,
              neg_neg]
          · rw [if_neg hneg, ← Nat.cast_mul, ← hn, Int.natAbs_of_nonneg (by omega)]
        have hmq2 := congrArg (fun z : Int => (z : ℚ)) hmq
        simp only [] at hmq2
        rw [← hmq2]
        push_cast
        ring


theorem Float32.ofInt_denotes (x : Int) (h : Float32.Representable (x : ℚ)) :
    Float32.Denotes (Float32.ofInt x) (x : ℚ) := by
  have hx : (x : ℚ) = (x : ℚ) * (2 : ℚ) ^ (0 : Int) := by simp
  unfold Float32.ofInt
  rw [hx] at h ⊢
  exact Float32.round_denotes x 0 h

theorem Float32.mul_denotes {x y : Float32} {p q : ℚ} (hx : Float32.Denotes x p)
    (hy : Float32.Denotes y q) (h : Float32.Representable (p * q)) :
    Float32.Denotes (x.mul y) (p * q) := by
  obtain ⟨m1, e1, rfl, rfl⟩ := hx
  obtain ⟨m2, e2, rfl, rfl⟩ := hy
  have hv : (m1 : ℚ) * (2 : ℚ) ^ e1 * ((m2 : ℚ) * (2 : ℚ) ^ e2)
      = ((m1 * m2 : Int) : ℚ) * (2 : ℚ) ^ (e1 + e2) := by
    rw [zpow_add₀ (by norm_num : (2 : ℚ) ≠ 0)]
    push_cast
    ring
  show Float32.Denotes (Float32.round (m1 * m2) (e1 + e2)) _
  rw [hv] at h ⊢
  exact Float32.round_denotes _ _ h

theorem Float32.divPow2_denotes {x : Float32} {p : ℚ} (k : Nat) (hx : Float32.Denotes x p)
    (h : Float32.Representable (p / (2 : ℚ) ^ k)) :
    Float32.Denotes (x.divPow2 k) (p / (2 : ℚ) ^ k) := by
  obtain ⟨m, e, rfl, rfl⟩ := hx
  have hv : (m : ℚ) * (2 : ℚ) ^ e / (2 : ℚ) ^ k = (m : ℚ) * (2 : ℚ) ^ (e - (k : Int)) := by
    rw [zpow_sub₀ (by norm_num : (2 : ℚ) ≠ 0), zpow_natCast]
    ring
  show Float32.Denotes (Float32.round m (e - (k : Int))) _
  rw [hv] at h ⊢
  exact Float32.round_denotes _ _ h

theorem Float32.toInt_denotes {x : Float32} {p : ℚ} (hx : Float32.Denotes x p)
    (hr : -(2 ^ 63 : Int) ≤ truncRat p ∧ truncRat p < (2 ^ 63 : Int)) :
    x.toInt = some (truncRat p) := by
  obtain ⟨m, e, rfl, rfl⟩ := hx
  rw [← truncDyadic_eq_truncRat] at hr ⊢
  unfold Float32.toInt
  simp only []
  rw [if_pos hr]

/-- C12 (amended): for a stream with a finite duration `d` and bit rate `b` such
that every step of the computation is exact in `float32` (`b`, `d * b`,
`d * b / 8` and `d * b / 8 * 1024` are `float32` values) and the integer part of
the result fits a 64-bit `int`, `Stream.EstimatedContentLength` returns
`d * b / 8 * 1024`, truncated towards zero to an integer. -/
theorem C12_estimated_content_length (s : Stream)
    (hd : s.mf.Duration ≠ Float32.nonFinite)
    (hb : Float32.Representable (s.bitRate : ℚ))
    (h1 : Float32.Representable (s.mf.Duration.toRat * (s.bitRate : ℚ)))
    (h2 : Float32.Representable (s.mf.Duration.toRat * (s.bitRate : ℚ) / 8))
    (h3 : Float32.Representable (s.mf.Duration.toRat * (s.bitRate : ℚ) / 8 * 1024))
    (hr : -(2 ^ 63 : Int) ≤ truncRat (s.mf.Duration.toRat * (s.bitRate : ℚ) / 8 * 1024) ∧
      truncRat (s.mf.Duration.toRat * (s.bitRate : ℚ) / 8 * 1024) < (2 ^ 63 : Int)) :
    s.EstimatedContentLength
      = some (truncRat (s.mf.Duration.toRat * (s.bitRate : ℚ) / 8 * 1024)) := by
  have hdur : Float32.Denotes s.mf.Duration s.mf.Duration.toRat := by
    cases hD : s.mf.Duration with
    | finite m e => exact ⟨m, e, rfl, rfl⟩
    | nonFinite => exact absurd hD hd
  have h8 : ((2 : ℚ) ^ (3 : Nat)) = 8 := by norm_num
  have hk : Float32.Denotes (Float32.finite 1 10) 1024 := ⟨1, 10, rfl, by norm_num⟩
  have s1 := Float32.mul_denotes hdur (Float32.ofInt_denotes s.bitRate hb) h1
  have s2 := Float32.divPow2_denotes 3 s1 (by rw [h8]; exact h2)
  rw [h8] at s2
  have s3 := Float32.mul_denotes s2 hk h3
  exact Float32.toInt_denotes s3 hr


/-- Witness for C12 (amended): a duration with a full 24-bit significand,
`14092861 * 2 ^ (-16)` seconds (about 215.04), at 128 kbps; the product
`14092861 * 2 ^ (-9)` is a `float32` value and the result is
`trunc(3523215.25) = 3523215`. -/
theorem C12_estimated_content_length_witness :
    (fullSignificandStream.mf.Duration = Float32.finite 14092861 (-16) ∧
      fullSignificandStream.bitRate = 128) ∧
    fullSignificandStream.EstimatedContentLength = some 3523215 ∧
    fullSignificandStream.EstimatedContentLength
      = some (truncRat (fullSignificandStream.mf.Duration.toRat
          * (fullSignificandStream.bitRate : ℚ) / 8 * 1024)) := by
  have hdv : fullSignificandStream.mf.Duration.toRat = (14092861 : ℚ) * (2 : ℚ) ^ (-16 : Int) := by
    show ((14092861 : Int) : ℚ) * (2 : ℚ) ^ (-16 : Int) = _
    norm_num
  have hbv : (fullSignificandStream.bitRate : ℚ) = 128 := by
    show ((128 : Int) : ℚ) = 128
    norm_num
  have hb : Float32.Representable (fullSignificandStream.bitRate : ℚ) :=
    ⟨128, 0, by decide, by decide, by decide, by rw [hbv]; norm_num⟩
  have h1 : Float32.Representable (fullSignificandStream.mf.Duration.toRat
      * (fullSignificandStream.bitRate : ℚ)) :=
    ⟨14092861, -9, by decide, by decide, by decide, by rw [hdv, hbv]; norm_num⟩
  have h2 : Float32.Representable (fullSignificandStream.mf.Duration.toRat
      * (fullSignificandStream.bitRate : ℚ) / 8) :=
    ⟨14092861, -12, by decide, by decide, by decide, by rw [hdv, hbv]; norm_num⟩
  have hval : fullSignificandStream.mf.Duration.toRat
      * (fullSignificandStream.bitRate : ℚ) / 8 * 1024
      = ((14092861 : Int) : ℚ) * (2 : ℚ) ^ (-2 : Int) := by
    rw [hdv, hbv]
    norm_num
  have h3 : Float32.Representable (fullSignificandStream.mf.Duration.toRat
      * (fullSignificandStream.bitRate : ℚ) / 8 * 1024) :=
    ⟨14092861, -2, by decide, by decide, by decide, hval⟩
  have htr : truncRat (fullSignificandStream.mf.Duration.toRat
      * (fullSignificandStream.bitRate : ℚ) / 8 * 1024) = 3523215 := by
    rw [hval, ← truncDyadic_eq_truncRat]
    decide
  exact ⟨⟨rfl, rfl⟩, by decide,
    C12_estimated_content_length fullSignificandStream (by decide) hb h1 h2 h3
      (by rw [htr]; decide)⟩

/-! ## Raw streams: `mediaStreamer.DoStream` -/

/-- C13: raw path of `DoStream`. When `selectTranscodingOptions` resolves to
format `raw`: if the source file opens, `DoStream` returns a stream that reads
from the opened source file, whose `Seekable()` is true and whose `Name()` is the
media title, a dot and the source suffix; if the source file cannot be opened,
`DoStream` returns that error and no stream; and in both cases the only call made
is the one to `os.Open` for the path of the media file, so `Get` of the
transcoding cache is never called. -/
theorem C13_raw_path (ms : mediaStreamer) (os : FileSystem) (ctx : Context) (dflt : String)
    (mf : MediaFile) (reqFormat : String) (reqBitRate : Int)
    (hraw : (selectTranscodingOptions ctx ms.ds dflt mf reqFormat reqBitRate).1 = "raw") :
    (∀ f, os.Open mf.Path = Except.ok f →
      ∃ s, (ms.DoStream os ctx dflt mf reqFormat reqBitRate).1 = Except.ok s ∧
        s.ReadCloser = Source.file f ∧ s.Seeker = some (Source.file f) ∧
        s.Seekable = true ∧ s.Name = mf.Title ++ "." ++ mf.Suffix) ∧
    (∀ err, os.Open mf.Path = Except.error err →
      (ms.DoStream os ctx dflt mf reqFormat reqBitRate).1 = Except.error err) ∧
    (ms.DoStream os ctx dflt mf reqFormat reqBitRate).2 = [Call.osOpen mf.Path] ∧
    (∀ job, Call.cacheGet job ∉ (ms.DoStream os ctx dflt mf reqFormat reqBitRate).2) := by
  have hcalls : (ms.DoStream os ctx dflt mf reqFormat reqBitRate).2 = [Call.osOpen mf.Path] := by
    unfold mediaStreamer.DoStream
    simp only []
    rw [if_pos hraw]
    cases os.Open mf.Path <;> rfl
  refine ⟨?_, ?_, hcalls, ?_⟩
  · intro f hf
    refine ⟨{ mf := mf,
              bitRate := (selectTranscodingOptions ctx ms.ds dflt mf reqFormat reqBitRate).2,
              format := mf.Suffix, ReadCloser := Source.file f,
              Seeker := some (Source.file f) }, ?_, rfl, rfl, rfl, rfl⟩
    unfold mediaStreamer.DoStream
    simp only []
    rw [if_pos hraw, hf]
  · intro err herr
    unfold mediaStreamer.DoStream
    simp only []
    rw [if_pos hraw, herr]
  · intro job hmem
    rw [hcalls] at hmem
    simp at hmem

/-- Witness for C13: the MP3 file requested as `raw`, once with a file system that
opens the file and once with one that does not. -/
theorem C13_raw_path_witness :
    (selectTranscodingOptions anonymous sampleStreamer.ds "opus" mp3File "raw" 0).1 = "raw" ∧
    (∃ s, (sampleStreamer.DoStream openAll anonymous "opus" mp3File "raw" 0).1 = Except.ok s ∧
      s.ReadCloser = Source.file { name := "/music/song.mp3" } ∧
      s.Seeker = some (Source.file { name := "/music/song.mp3" }) ∧
      s.Seekable = true ∧ s.Name = mp3File.Title ++ "." ++ mp3File.Suffix) ∧
    (sampleStreamer.DoStream openNone anonymous "opus" mp3File "raw" 0).1
      = Except.error "no such file or directory" ∧
    (sampleStreamer.DoStream openAll anonymous "opus" mp3File "raw" 0).2
      = [Call.osOpen "/music/song.mp3"] :=
  ⟨by decide,
    (C13_raw_path sampleStreamer openAll anonymous "opus" mp3File "raw" 0 (by decide)).1
      { name := "/music/song.mp3" } rfl,
    (C13_raw_path sampleStreamer openNone anonymous "opus" mp3File "raw" 0 (by decide)).2.1
      "no such file or directory" rfl,
    (C13_raw_path sampleStreamer openAll anonymous "opus" mp3File "raw" 0 (by decide)).2.2.1⟩

end MusicCenter
